import Mathlib

/-!
Verification of the Bexio MCP server's Field Completion & Resilient Request
layer (sources: `src/mcp_server_bexio/bexio_client.py`,
`src/mcp_server_bexio/field_validator.py`, `src/mcp_server_bexio/server.py`).

The Python code manipulates JSON-like values (parsed request/response
bodies).  We embed them as the inductive type `Json` below.  JSON numbers
keep the int/float distinction made by Python's json module (`Json.int` /
`Json.float`); floats are represented by exact rationals, which is faithful
for every literal appearing in this code base.  A Python `dict` is an
insertion-ordered association list without duplicate keys; the embedding
uses `List (String × Json)` together with operations (`setKey`, `lookupKey`,
`dictMerge`, …) that reproduce CPython's insertion-order semantics.
A missing key and a key bound to JSON `null` both surface as Python `None`,
exactly as `dict.get` does.

HTTP traffic is modelled by an oracle `Net : HttpReq → Except String Json`:
`.ok v` is a 2xx response with parsed body `v`, `.error e` is any of the
failure modes that `BexioClient._request` converts into a raised
`ValueError` (non-2xx status, transport failure).  Functions that talk to
the network additionally return the ordered list of requests they issued,
so that "before any network call" / "resolved exactly once" style claims
are statable.
-/

namespace BexioSpec

/-- JSON values as produced by Python's json module. -/
inductive Json where
  | null : Json
  | bool (b : Bool) : Json
  | int (n : Int) : Json
  | float (q : Rat) : Json
  | str (s : String) : Json
  | arr (elems : List Json) : Json
  | obj (fields : List (String × Json)) : Json

/-- Python truthiness of a JSON value (`bool(v)`): `None`, `False`, `0`,
`0.0`, `""`, `[]` and `\x7b\x7d` are falsy, everything else truthy. -/
def truthy : Json → Bool
  | .null => false
  | .bool b => b
  | .int n => n != 0
  | .float q => q != 0
  | .str s => s != ""
  | .arr xs => !xs.isEmpty
  | .obj kvs => !kvs.isEmpty

/-- First binding of key `k` in an association list (Python `dict` lookup;
CPython dicts never hold duplicate keys, so first = only). -/
def lookupKey : List (String × Json) → String → Option Json
  | [], _ => none
  | (k0, v0) :: rest, k => if k0 = k then some v0 else lookupKey rest k

/-- Python `k in d`. -/
def hasKey (d : List (String × Json)) (k : String) : Bool :=
  (lookupKey d k).isSome

/-- Python `d.get(k, dflt)`. -/
def pyGetD (d : List (String × Json)) (k : String) (dflt : Json) : Json :=
  (lookupKey d k).getD dflt

/-- Python `d[k] = v`: replace in place if the key exists (keeping its
position), otherwise append at the end. -/
def setKey : List (String × Json) → String → Json → List (String × Json)
  | [], k, v => [(k, v)]
  | (k0, v0) :: rest, k, v =>
      if k0 = k then (k0, v) :: rest else (k0, v0) :: setKey rest k v

/-- Python `d.pop(k)` (key removal; our dicts have no duplicate keys, so
removing every occurrence coincides with removing the single one). -/
def removeKey (d : List (String × Json)) (k : String) : List (String × Json) :=
  d.filter (fun p => p.1 ≠ k)

/-- Python `\x7b**a, **b\x7d`: start from `a`, then write every binding of
`b` in order (replacing in place or appending). -/
def dictMerge (a b : List (String × Json)) : List (String × Json) :=
  b.foldl (fun acc p => setKey acc p.1 p.2) a

/-- The association list has no duplicate keys (always true of a list that
came from a Python dict). -/
def NodupKeys (d : List (String × Json)) : Prop :=
  (d.map Prod.fst).Nodup

instance (d : List (String × Json)) : Decidable (NodupKeys d) := by
  unfold NodupKeys; infer_instance

/-! ### Python string rendering

`_filter_by_criteria` compares values via `str(...)`.  `pyRepr` mirrors
Python's `repr` on values parsed from JSON (`None`, `True`, quoted strings,
bracketed containers); `pyStr` mirrors `str`, which returns strings
unquoted and otherwise agrees with `repr`.  Float rendering is only
exercised by this code base on values with `str`-form `n.0`; strings are
rendered without escaping their interior, which is faithful for every
string this development touches. -/

/-- Python `repr` of a float (as far as this code base exercises it). -/
def pyFloatStr (q : Rat) : String :=
  if q.den = 1 then toString q.num ++ ".0" else toString q

mutual

/-- Python `repr` of a JSON-derived value. -/
def pyRepr : Json → String
  | .null => "None"
  | .bool b => if b then "True" else "False"
  | .int n => toString n
  | .float q => pyFloatStr q
  | .str s => "\x27" ++ s ++ "\x27"
  | .arr xs => "[" ++ String.intercalate ", " (pyReprList xs) ++ "]"
  | .obj kvs => "\x7b" ++ String.intercalate ", " (pyReprFields kvs) ++ "\x7d"

/-- `repr` of each element of a list. -/
def pyReprList : List Json → List String
  | [] => []
  | x :: xs => pyRepr x :: pyReprList xs

/-- `repr` of each binding of a dict. -/
def pyReprFields : List (String × Json) → List String
  | [] => []
  | (k, v) :: rest => ("\x27" ++ k ++ "\x27: " ++ pyRepr v) :: pyReprFields rest

end

/-- Python `str(v)`: the identity on strings, `repr` otherwise. -/
def pyStr : Json → String
  | .str s => s
  | v => pyRepr v

/-- Python `s.lower()` (this code base only lowercases ASCII search terms,
where per-character ASCII lowercasing agrees with Python). -/
def pyLower (s : String) : String := String.mk (s.data.map Char.toLower)

/-- Python `s.split(sep)` for a one-character separator, on character
lists: splitting the empty text yields one empty group, a separator opens
a new group. -/
def splitOnCharList (sep : Char) : List Char → List (List Char)
  | [] => [[]]
  | c :: rest =>
      match splitOnCharList sep rest with
      | [] => [[]]
      | g :: gs => if c = sep then [] :: g :: gs else (c :: g) :: gs

/-- Python `s.split(sep)` for a one-character separator. -/
def pySplit (sep : Char) (s : String) : List String :=
  (splitOnCharList sep s.data).map String.mk

/-- Substring containment on character lists (Python `needle in hay`). -/
def subList (needle : List Char) : List Char → Bool
  | [] => needle.isEmpty
  | c :: rest => needle.isPrefixOf (c :: rest) || subList needle rest

/-- Python `needle in hay` for strings. -/
def pyInStr (needle hay : String) : Bool := subList needle.data hay.data

/-! ### The HTTP layer -/

/-- One HTTP request as issued by `BexioClient._request`: method, endpoint
path (relative to the versioned base URL), optional JSON body, query
parameters. -/
structure HttpReq where
  method : String
  path : String
  body : Option Json
  params : List (String × Json)

/-- The network oracle: `.ok v` is a 2xx response with parsed JSON body
`v`; `.error e` is any failure that `_request` turns into a raised
`ValueError` (non-2xx status or transport failure). -/
def Net : Type := HttpReq → Except String Json

/-! ### `BexioClient._filter_by_criteria` (bexio_client.py lines 88-124) -/

/-- The dotted-path traversal inside `matches`: `actual = item`, then for
each part `actual = actual.get(part)` if `actual` is a dict, else `None`
and stop.  A missing key and an explicit JSON `null` are both Python
`None`, i.e. `Json.null`. -/
def getPath : Json → List String → Json
  | actual, [] => actual
  | .obj kvs, part :: rest => getPath (pyGetD kvs part .null) rest
  | _, _ :: _ => .null

/-- Does `some v` hold a non-`null` value (Python `v is not None` after a
`.get`)?  Used for skip tests of the form `x is not None`. -/
def presentNonNull : Option Json → Bool
  | some .null => false
  | some _ => true
  | none => false

/-- One criterion test of `matches` (bexio_client.py lines 98-121), for a
criterion that is a dict.  Python would raise on a truthy non-string
`field`/`criteria` entry; such malformed criteria are modelled as a
non-match and excluded by `condWellformed` wherever a theorem quantifies
over criteria. -/
def condTest (item : Json) (cond : List (String × Json)) : Bool :=
  match pyGetD cond "field" .null with
  | .str f =>
      if f = "" then false
      else
        let value := pyGetD cond "value" .null
        let op : String :=
          match pyGetD cond "criteria" .null with
          | .str s => if s = "" then "=" else pyLower s
          | v => if truthy v then "<crash>" else "="
        let actual := getPath item (pySplit '.' f)
        if op = "=" then pyStr actual == pyStr value
        else if op = "like" then
          match value with
          | .null => false
          | _ => pyInStr (pyLower (pyStr value)) (pyLower (pyStr actual))
        else false
  | v => if truthy v then false else false

/-- A criterion on which the Python code does not raise: its `field` and
`criteria` entries, when truthy, are strings. -/
def condWellformed (cond : List (String × Json)) : Bool :=
  (match pyGetD cond "field" .null with
   | .str _ => true
   | v => !truthy v) &&
  (match pyGetD cond "criteria" .null with
   | .str _ => true
   | v => !truthy v)

/-- One criterion test for a criterion given as a JSON value (a non-dict
criterion would make Python raise; modelled as a non-match and excluded by
wellformedness hypotheses). -/
def condTestJ (item : Json) : Json → Bool
  | .obj kvs => condTest item kvs
  | _ => false

/-- `matches(item)`: every criterion matches. -/
def pyMatches (criteria : List Json) (item : Json) : Bool :=
  criteria.all (condTestJ item)

/-- `BexioClient._filter_by_criteria`. -/
def filter_by_criteria (items : List Json) (criteria : List Json) : List Json :=
  items.filter (pyMatches criteria)

/-! ### Contact operations (bexio_client.py lines 160-212) -/

/-- The alias normalization shared by `create_contact` and
`update_contact`: `if "email" in normalized and "mail" not in normalized:
normalized["mail"] = normalized.pop("email")`.  `pop` removes the key,
after which the assignment appends `mail` at the end. -/
def email_alias_norm (d : List (String × Json)) : List (String × Json) :=
  if hasKey d "email" && !hasKey d "mail" then
    removeKey d "email" ++ [("mail", pyGetD d "email" .null)]
  else d

/-- The GET request issued by `get_contact`. -/
def get_contact_req (contact_id : Int) : HttpReq :=
  HttpReq.mk "GET" ("/contact/" ++ toString contact_id) none []

/-- `BexioClient.create_contact`: returns the response and the request
trace. -/
def create_contact (net : Net) (contact_data : List (String × Json)) :
    Except String Json × List HttpReq :=
  let r := HttpReq.mk "POST" "/contact" (some (.obj (email_alias_norm contact_data))) []
  (net r, [r])

/-- `BexioClient.update_contact`: normalize the alias, fetch the existing
contact and PUT the merge `\x7b**existing, **normalized\x7d`; if anything in
that try-block fails (the GET, the merge — which needs a dict — or the
merged PUT itself), fall back to PUTting the normalized fields alone. -/
def update_contact (net : Net) (contact_id : Int)
    (contact_data : List (String × Json)) : Except String Json × List HttpReq :=
  let normalized := email_alias_norm contact_data
  let getReq := get_contact_req contact_id
  let putPath := "/contact/" ++ toString contact_id
  let fallbackReq := HttpReq.mk "PUT" putPath (some (.obj normalized)) []
  match net getReq with
  | .ok (.obj existing) =>
      let mergedReq := HttpReq.mk "PUT" putPath (some (.obj (dictMerge existing normalized))) []
      match net mergedReq with
      | .ok r => (.ok r, [getReq, mergedReq])
      | .error _ => (net fallbackReq, [getReq, mergedReq, fallbackReq])
  | .ok _ => (net fallbackReq, [getReq, fallbackReq])
  | .error _ => (net fallbackReq, [getReq, fallbackReq])

/-! ### Invoice creation (bexio_client.py lines 236-247) -/

/-- The error raised when `contact_id` is missing/falsy. -/
def invoiceContactErr : String := "Invoice requires contact_id"

/-- The error raised when `positions` is not a non-empty list (the literal
message from bexio_client.py lines 243-246). -/
def invoicePositionsErr : String :=
  "Invoice requires at least one position. Provide positions=[\x7b\"type\": \"KbPositionCustom\", \"text\": \"Item description\", \"amount\": 1, \"unit_price\": 10.0\x7d]"

/-- `BexioClient.create_invoice`: local validation before any network
call, then POST `/kb_invoice`. -/
def create_invoice (net : Net) (invoice_data : List (String × Json)) :
    Except String Json × List HttpReq :=
  if !truthy (pyGetD invoice_data "contact_id" .null) then
    (.error invoiceContactErr, [])
  else
    match lookupKey invoice_data "positions" with
    | some (.arr ps) =>
        if ps.isEmpty then (.error invoicePositionsErr, [])
        else
          let r := HttpReq.mk "POST" "/kb_invoice" (some (.obj invoice_data)) []
          (net r, [r])
    | _ => (.error invoicePositionsErr, [])

/-! ### The search fallback ladder (bexio_client.py lines 259-274, 312-321) -/

/-- Python iteration over a JSON value (`for it in v`): lists yield their
elements, dicts their keys, strings their characters; other values raise
`TypeError`. -/
def pyIterate : Json → Except String (List Json)
  | .arr xs => .ok xs
  | .obj kvs => .ok (kvs.map (fun p => Json.str p.1))
  | .str s => .ok (s.data.map (fun c => Json.str (String.singleton c)))
  | _ => .error "TypeError: object is not iterable"

/-- `FieldType` together with the extra payload each treatment carries in a
`FieldSpec` (`default_value` for `AUTO_FILL_DEFAULT`, `lookup_method` for
`AUTO_FILL_LOOKUP`). -/
inductive FieldTreatment where
  | requiredUserInput : FieldTreatment
  | autoFillDefault (default_value : Json) : FieldTreatment
  | autoFillLookup (lookup_method : String) : FieldTreatment
  | apiHandled : FieldTreatment

/-- One `FieldSpec` row of the policy table. -/
structure FieldSpec where
  name : String
  treatment : FieldTreatment
  description : String

/-- `BexioFieldValidator.FIELD_SPECS` (field_validator.py lines 30-83). -/
def FIELD_SPECS : List (String × List FieldSpec) := [
  ("create_contact", [
    FieldSpec.mk "name_1" .requiredUserInput "Contact name (company name or first name)",
    FieldSpec.mk "contact_type_id" (.autoFillDefault (.int 2)) "Contact type (1=company, 2=person)",
    FieldSpec.mk "user_id" (.autoFillDefault (.int 1)) "User ID (typically 1)",
    FieldSpec.mk "owner_id" (.autoFillDefault (.int 1)) "Owner ID (typically 1)"]),
  ("update_contact", [
    FieldSpec.mk "name_1" (.autoFillLookup "get_contact") "Contact name",
    FieldSpec.mk "contact_type_id" (.autoFillLookup "get_contact") "Contact type",
    FieldSpec.mk "nr" .apiHandled "Contact number (API handles gracefully)",
    FieldSpec.mk "user_id" (.autoFillLookup "get_contact") "User ID",
    FieldSpec.mk "owner_id" (.autoFillLookup "get_contact") "Owner ID"]),
  ("create_invoice", [
    FieldSpec.mk "contact_id" .requiredUserInput "Contact ID for the invoice",
    FieldSpec.mk "user_id" (.autoFillDefault (.int 1)) "User ID (typically 1)",
    FieldSpec.mk "positions" .requiredUserInput "Invoice line items array"]),
  ("create_quote", [
    FieldSpec.mk "contact_id" .requiredUserInput "Contact ID for the quote",
    FieldSpec.mk "user_id" (.autoFillDefault (.int 1)) "User ID (typically 1)"]),
  ("create_project", [
    FieldSpec.mk "name" .requiredUserInput "Project name",
    FieldSpec.mk "contact_id" .requiredUserInput "Contact ID for the project",
    FieldSpec.mk "user_id" (.autoFillDefault (.int 1)) "User ID (typically 1)",
    FieldSpec.mk "pr_state_id" (.autoFillDefault (.int 1)) "Project state ID (1=active)",
    FieldSpec.mk "pr_project_type_id" (.autoFillDefault (.int 1)) "Project type ID (1=default)"]),
  ("create_item", [
    FieldSpec.mk "intern_name" .requiredUserInput "Internal item name"]),
  ("search_contacts", [
    FieldSpec.mk "criteria" .requiredUserInput "Search criteria array with field, value, criteria"]),
  ("search_invoices", [
    FieldSpec.mk "criteria" .requiredUserInput "Search criteria array"]),
  ("search_quotes", [
    FieldSpec.mk "criteria" .requiredUserInput "Search criteria array"])]

/-- `BexioFieldValidator.DEFAULT_INVOICE_POSITION` (lines 86-91). -/
def DEFAULT_INVOICE_POSITION : List (String × Json) :=
  [("type", .str "KbPositionCustom"),
   ("amount", .int 1),
   ("unit_price", .float 0),
   ("tax_id", .null)]

/-- `BexioFieldValidator._get_data_key` (lines 171-181). -/
def get_data_key (function_name : String) : Option String :=
  (([("create_contact", "contact_data"),
     ("update_contact", "contact_data"),
     ("create_invoice", "invoice_data"),
     ("create_quote", "quote_data"),
     ("create_project", "project_data"),
     ("create_item", "item_data")] :
      List (String × String)).find? (fun p => p.1 = function_name)).map Prod.snd

/-- The GET `/tax` request issued by `_get_default_tax_id`. -/
def taxReq : HttpReq := HttpReq.mk "GET" "/tax" none []

/-- Python `x > 0` on a JSON-derived value (`True`/`False` compare as
`1`/`0`; `None`, strings and containers raise `TypeError`). -/
def pyGtZero : Json → Except String Bool
  | .int n => .ok (decide (0 < n))
  | .float q => .ok (decide (0 < q))
  | .bool b => .ok b
  | _ => .error "TypeError: unorderable types"

/-- The scan inside `_get_default_tax_id`'s try-block (lines 236-242): the
first tax with truthy `is_active` (default `True`) and positive
`percentage` (default `0`) yields its `id` (default `1`); if none matches,
the first tax's `id` (default `1`); a non-dict entry or an unorderable
`percentage` raises, which the caller's except-clause turns into the
constant fallback. -/
def taxScan (first : Json) : List Json → Except String Json
  | [] =>
      match first with
      | .obj kvs => .ok (pyGetD kvs "id" (.int 1))
      | _ => .error "AttributeError: no attribute get"
  | t :: rest =>
      match t with
      | .obj kvs =>
          if truthy (pyGetD kvs "is_active" (.bool true)) then
            match pyGtZero (pyGetD kvs "percentage" (.int 0)) with
            | .ok true => .ok (pyGetD kvs "id" (.int 1))
            | .ok false => taxScan first rest
            | .error e => .error e
          else taxScan first rest
      | _ => .error "AttributeError: no attribute get"

/-- `BexioFieldValidator._get_default_tax_id` (lines 228-248), for the
validator the server builds (its `bexio_client` is always set).  A non-list
`/tax` response is either falsy (skipping the scan) or makes the try-block
raise; both roads end at the constant fallback `1`, hence the catch-all
arm. -/
def get_default_tax_id (net : Net) : Json :=
  match net taxReq with
  | .error _ => .int 1
  | .ok v =>
      match v with
      | .arr taxes =>
          match taxes with
          | [] => .int 1
          | first :: _ =>
              match taxScan first taxes with
              | .ok i => i
              | .error _ => .int 1
      | _ => .int 1

/-- One `if key not in completed_pos: completed_pos[key] = v` step. -/
def fillIfMissing (d : List (String × Json)) (k : String) (v : Json) :
    List (String × Json) :=
  if hasKey d k then d else d ++ [(k, v)]

/-- The final `tax_id` step: fill when the key is absent or `None`. -/
def taxFill (t : Json) (d : List (String × Json)) : List (String × Json) :=
  if presentNonNull (lookupKey d "tax_id") then d else setKey d "tax_id" t

/-- The per-item completion inside `_complete_invoice_positions`'s loop
(lines 190-203): merge over `DEFAULT_INVOICE_POSITION`, then fill `text`,
`amount`, `unit_price` when the key is absent, then fill `tax_id` when
absent or `None`. -/
def completeOnePosition (default_tax_id : Json) (pos : List (String × Json)) :
    List (String × Json) :=
  taxFill default_tax_id
    (fillIfMissing
      (fillIfMissing
        (fillIfMissing (dictMerge DEFAULT_INVOICE_POSITION pos) "text" (.str "Service"))
        "amount" (.int 1))
      "unit_price" (.float 0))

/-- The completion loop of `_complete_invoice_positions`: each position is
completed in order; a non-dict position makes Python's
`\x7b**default, **pos\x7d` raise at that point. -/
def completeEach (t : Json) : List Json → Except String (List Json)
  | [] => .ok []
  | p :: rest =>
      match p with
      | Json.obj kvs =>
          match completeEach t rest with
          | .ok out => .ok (Json.obj (completeOnePosition t kvs) :: out)
          | .error e => .error e
      | _ => .error "TypeError: mapping required"

/-- `BexioFieldValidator._complete_invoice_positions` (lines 183-205):
resolve the default tax id once (one GET `/tax`, issued before the loop —
the request trace is returned), then complete every position. -/
def complete_invoice_positions (net : Net) (positions : Json) :
    Except String Json × List HttpReq :=
  let t := get_default_tax_id net
  match pyIterate positions with
  | .error e => (.error e, [taxReq])
  | .ok items =>
      match completeEach t items with
      | .ok out => (.ok (.arr out), [taxReq])
      | .error e => (.error e, [taxReq])

/-- `BexioFieldValidator._lookup_field_value` (lines 207-226), returning
the Python value (`Json.null` both for a failed lookup and for an entity
field that is absent or null — indistinguishable through `dict.get`).
`not context_id` makes a missing or zero context id fail the lookup. -/
def lookup_field_value (net : Net) (lookup_method : String)
    (context_id : Option Int) (field_name : String) : Json :=
  match context_id with
  | none => .null
  | some cid =>
      if cid = 0 then .null
      else if lookup_method = "get_contact" then
        match net (get_contact_req cid) with
        | .ok (.obj kvs) => pyGetD kvs field_name .null
        | _ => .null
      else .null

/-- One iteration of the field loop of `validate_and_complete_fields`
(field_validator.py lines 128-161).  The state is the working mapping plus
the accumulated missing-field messages; `.error` models an exception
escaping the loop (only the positions re-completion can raise). -/
def processFieldSpec (net : Net) (function_name : String) (context_id : Option Int)
    (st : Except String (List (String × Json) × List String)) (fs : FieldSpec) :
    Except String (List (String × Json) × List String) :=
  match st with
  | .error e => .error e
  | .ok (nested, missing) =>
      if presentNonNull (lookupKey nested fs.name) then
        if fs.name = "positions" && function_name = "create_invoice" then
          match (complete_invoice_positions net (pyGetD nested fs.name .null)).1 with
          | .ok newPositions => .ok (setKey nested fs.name newPositions, missing)
          | .error e => .error e
        else .ok (nested, missing)
      else
        match fs.treatment with
        | .requiredUserInput =>
            .ok (nested, missing ++ [fs.name ++ ": " ++ fs.description])
        | .autoFillDefault d => .ok (setKey nested fs.name d, missing)
        | .autoFillLookup m =>
            let v := lookup_field_value net m context_id fs.name
            match v with
            | .null => .ok (nested, missing ++ [fs.name ++ ": " ++ fs.description ++ " (lookup failed)"])
            | _ => .ok (setKey nested fs.name v, missing)
        | .apiHandled => .ok (nested, missing)

/-- `BexioFieldValidator.validate_and_complete_fields` (lines 97-169), for
the validator the server builds (client always present).  A top-level
payload is a dict; when the operation's data key is present its value must
be a dict to serve as the working mapping (Python would raise on the first
mutation otherwise — modelled as `.error`). -/
def validate_and_complete_fields (net : Net) (function_name : String)
    (data : List (String × Json)) (context_id : Option Int) :
    Except String (List (String × Json) × List String) :=
  match (FIELD_SPECS.find? (fun p => p.1 = function_name)).map Prod.snd with
  | none => .ok (data, [])
  | some field_specs =>
      let dataKey := get_data_key function_name
      match dataKey with
      | some k =>
          match lookupKey data k with
          | some (.obj w) =>
              match (field_specs.foldl (processFieldSpec net function_name context_id) (.ok (w, []))) with
              | .ok (nested, missing) => .ok (setKey data k (.obj nested), missing)
              | .error e => .error e
          | some _ => .error "TypeError: working mapping is not a dict"
          | none =>
              field_specs.foldl (processFieldSpec net function_name context_id) (.ok (data, []))
      | none =>
          field_specs.foldl (processFieldSpec net function_name context_id) (.ok (data, []))

/-! ### The tool-call completion step (server.py lines 512-521) -/

/-- The attribute names `BexioFieldValidator` defines (field_validator.py):
the methods of the class.  `call_tool` invokes `auto_complete_fields`,
which is not among them. -/
def bexioFieldValidatorMethods : List String :=
  ["__init__", "validate_and_complete_fields", "_get_data_key",
   "_complete_invoice_positions", "_lookup_field_value",
   "_get_default_tax_id", "create_user_prompt_message", "parse_422_error"]

/-- The tool names for which `call_tool` runs the auto-completion step
(server.py line 520). -/
def autoCompleteToolNames : List String :=
  ["create_contact", "update_contact", "create_invoice", "update_invoice",
   "create_quote", "update_quote", "create_project", "update_project",
   "create_item"]

/-- The completion step of `call_tool` (server.py lines 519-521):
`arguments = await field_validator.auto_complete_fields(name, arguments)`.
Python resolves the attribute `auto_complete_fields` on the validator
before calling it; since the class does not define it, the step raises
`AttributeError` (caught by `call_tool`'s outer handler, which returns an
error text instead of dispatching the operation). -/
def callToolCompletionStep (name : String) (arguments : Json) : Except String Json :=
  if autoCompleteToolNames.contains name then
    if bexioFieldValidatorMethods.contains "auto_complete_fields" then
      .ok arguments
    else
      .error "AttributeError: BexioFieldValidator object has no attribute auto_complete_fields"
  else .ok arguments

/-! ### Python `==` on JSON values

Python compares dicts ignoring insertion order and compares numbers across
`bool`/`int`/`float` (`True == 1 == 1.0`).  We canonicalize: numbers become
rationals, dict bindings are deduplicated (first occurrence wins, matching
`lookupKey`) and sorted by key; two values are Python-`==` iff their
canonical forms coincide. -/

/-- Lexicographic comparison of character lists by code point (the key
order used to canonicalize dicts; any total order serves). -/
def charListLe : List Char → List Char → Bool
  | [], _ => true
  | _ :: _, [] => false
  | a :: as, b :: bs =>
      if a.toNat < b.toNat then true
      else if b.toNat < a.toNat then false
      else charListLe as bs

/-- Key order for dict canonicalization. -/
def keyLe (a b : String) : Bool := charListLe a.data b.data

/-- Insert a binding into a key-sorted association list. -/
def insertByKey (p : String × Json) : List (String × Json) → List (String × Json)
  | [] => [p]
  | q :: rest => if keyLe p.1 q.1 then p :: q :: rest else q :: insertByKey p rest

/-- Insertion sort of an association list by key. -/
def sortByKey : List (String × Json) → List (String × Json)
  | [] => []
  | p :: rest => insertByKey p (sortByKey rest)

/-- Drop every binding whose key occurred earlier (or is in `seen`). -/
def dedupKeys (seen : List String) : List (String × Json) → List (String × Json)
  | [] => []
  | (k, v) :: rest =>
      if seen.contains k then dedupKeys seen rest
      else (k, v) :: dedupKeys (k :: seen) rest

mutual

/-- Canonical form of a JSON value with respect to Python `==`. -/
def canon : Json → Json
  | .null => .null
  | .bool b => .float (if b then 1 else 0)
  | .int n => .float n
  | .float q => .float q
  | .str s => .str s
  | .arr xs => .arr (canonList xs)
  | .obj kvs => .obj (sortByKey (dedupKeys [] (canonFields kvs)))

/-- Canonicalize each element. -/
def canonList : List Json → List Json
  | [] => []
  | x :: xs => canon x :: canonList xs

/-- Canonicalize each binding's value. -/
def canonFields : List (String × Json) → List (String × Json)
  | [] => []
  | (k, v) :: rest => (k, canon v) :: canonFields rest

end

/-- Python `a == b` on JSON-derived values. -/
def pyEq (a b : Json) : Prop := canon a = canon b

/-! ### Concrete network oracles used in the claims -/

/-- A network whose GET returns an empty contact and whose other requests
succeed trivially. -/
def netEmptyContact : Net := fun r =>
  if r.method = "GET" then .ok (.obj []) else .ok .null

/-- A network whose GET returns the contact `\x7ba:1, b:2, c:3\x7d` and whose
other requests succeed trivially. -/
def netABCContact : Net := fun r =>
  if r.method = "GET" then
    .ok (.obj [("a", Json.int 1), ("b", Json.int 2), ("c", Json.int 3)])
  else .ok .null

/-! ### Spec-side filtering semantics (for the refinement comparison) -/

/-- Written from the spec's words (§4.1 filtering semantics): dotted field
paths traverse nested mappings; traversal through a non-mapping or a
missing key yields no value. -/
def specPathValue : Json → List String → Option Json
  | v, [] => some v
  | .obj kvs, p :: rest =>
      match lookupKey kvs p with
      | some w => specPathValue w rest
      | none => none
  | _, _ :: _ => none

/-- The spec's three operator classes. -/
inductive SpecOp where
  | opEq : SpecOp
  | opLike : SpecOp
  | opUnknown : SpecOp

/-- Operator resolution per the spec: a missing/falsy operator entry
defaults to equality; otherwise the lowercased operator string selects
equality, containment, or the unrecognized class. -/
def specParseOp (cond : List (String × Json)) : SpecOp :=
  match pyGetD cond "criteria" .null with
  | .str s =>
      if s = "" then .opEq
      else if pyLower s = "=" then .opEq
      else if pyLower s = "like" then .opLike
      else .opUnknown
  | v => if truthy v then .opUnknown else .opEq

/-- Written from the spec's words, amended where the counterexample forces
it: a criterion names a field path, an operator and a value; `=` is exact
string-equality and `like` case-insensitive substring containment of the
rendered values; an unrecognized operator never matches; a traversal that
yields no value contributes the null value, which is *rendered as the
Python string "None"* for both comparisons (the amendment — the spec said
such comparisons always fail). -/
def specCriterionMatches (record : Json) (cond : List (String × Json)) : Bool :=
  match pyGetD cond "field" .null with
  | .str f =>
      if f = "" then false
      else
        let value := pyGetD cond "value" .null
        let rendered := pyStr ((specPathValue record (pySplit '.' f)).getD .null)
        match specParseOp cond with
        | .opEq => rendered == pyStr value
        | .opLike =>
            match value with
            | .null => false
            | _ => pyInStr (pyLower (pyStr value)) (pyLower rendered)
        | .opUnknown => false
  | _ => false

/-- A record matches when every criterion matches (spec side). -/
def specMatches (criteria : List Json) (record : Json) : Bool :=
  criteria.all (fun c =>
    match c with
    | .obj kvs => specCriterionMatches record kvs
    | _ => false)

/-- The fixed dotted-path criterion of the claim's examples. -/
def zurichCond : Json :=
  Json.obj [("field", Json.str "address.city"), ("value", Json.str "Zürich"),
            ("criteria", Json.str "=")]

/-- A tax entry the resolution prefers: a dict marked active (an absent
marker counts as active, matching `tax.get("is_active", True)`) whose rate
is positive. -/
def preferredTax : Json → Bool
  | .obj kvs =>
      truthy (pyGetD kvs "is_active" (.bool true)) &&
        (match pyGtZero (pyGetD kvs "percentage" (.int 0)) with
          | .ok b => b
          | .error _ => false)
  | _ => false

/-- The `id` of a tax entry, default `1` (`tax.get("id", 1)`). -/
def taxIdOf : Json → Json
  | .obj kvs => pyGetD kvs "id" (.int 1)
  | _ => .int 1

/-- A tax entry on which the scan cannot raise: a dict whose `percentage`
entry (when its activity check is reached) is orderable against `0`. -/
def taxWellformed : Json → Bool
  | .obj kvs =>
      !truthy (pyGetD kvs "is_active" (.bool true)) ||
        (match pyGtZero (pyGetD kvs "percentage" (.int 0)) with
          | .ok _ => true
          | .error _ => false)
  | _ => false

/-- A network serving a concrete tax table: the first tax inactive, the
second active with a positive rate. -/
def netTaxes : Net := fun r =>
  if r.path = "/tax" then
    .ok (.arr [Json.obj [("id", Json.int 9), ("is_active", Json.bool false),
                         ("percentage", Json.float (77/10))],
               Json.obj [("id", Json.int 4), ("percentage", Json.int 8)]])
  else .error "offline"

/-- The payload shape the tool boundary passes for an operation: the
working mapping sits under the operation's data key when it has one, else
at the top level. -/
def topWrap (fn : String) (w : List (String × Json)) : List (String × Json) :=
  match get_data_key fn with
  | some k => [(k, Json.obj w)]
  | none => w

/-- Recover the working mapping from a completed payload. -/
def workingOf (fn : String) (d : List (String × Json)) : List (String × Json) :=
  match get_data_key fn with
  | some k =>
      match lookupKey d k with
      | some (Json.obj w) => w
      | _ => d
  | none => d

/-- The effect of one loop step on the working mapping: either untouched
or one key written. -/
def applyUpd (n : List (String × Json)) (k : String) : Option Json → List (String × Json)
  | none => n
  | some w => setKey n k w

/-- Both states carry the same raised error. -/
def StErr (s1 s2 : Except String (List (String × Json) × List String)) : Prop :=
  ∃ e, s1 = .error e ∧ s2 = .error e

/-- Both states succeeded with pointwise-equal working mappings and equal
missing-field lists, or raised the same error. -/
def StRelB (s1 s2 : Except String (List (String × Json) × List String)) : Prop :=
  StErr s1 s2 ∨
  ∃ n1 n2 m, s1 = .ok (n1, m) ∧ s2 = .ok (n2, m) ∧
    ∀ k, lookupKey n1 k = lookupKey n2 k

/-- Both states succeeded, agree away from `f`, the first carries `f ↦ d`
and the second lacks `f`. -/
def StRelA (f : String) (d : Json)
    (s1 s2 : Except String (List (String × Json) × List String)) : Prop :=
  ∃ n1 n2 m, s1 = .ok (n1, m) ∧ s2 = .ok (n2, m) ∧
    (∀ k, k ≠ f → lookupKey n1 k = lookupKey n2 k) ∧
    lookupKey n1 f = some d ∧ lookupKey n2 f = none

/-! ### Association-list lemmas -/

theorem lookupKey_eq_none_of_not_mem :
    ∀ (d : List (String × Json)) (k : String), k ∉ d.map Prod.fst → lookupKey d k = none := by
  intro d
  induction d with
  | nil => intro k _; rfl
  | cons p rest ih =>
      intro k hk
      obtain ⟨k0, v0⟩ := p
      simp only [List.map_cons, List.mem_cons] at hk
      push_neg at hk
      have h0 : ¬ (k0 = k) := fun h => hk.1 h.symm
      simp [lookupKey, h0, ih k hk.2]

theorem lookupKey_setKey (k : String) (v : Json) :
    ∀ d k', lookupKey (setKey d k v) k' = if k' = k then some v else lookupKey d k' := by
  intro d
  induction d with
  | nil =>
      intro k'
      by_cases h : k' = k
      · subst h; simp [setKey, lookupKey]
      · have h2 : ¬ (k = k') := fun hh => h hh.symm
        simp [setKey, lookupKey, h, h2]
  | cons p rest ih =>
      intro k'
      obtain ⟨k0, v0⟩ := p
      by_cases hk : k0 = k
      · subst hk
        by_cases h' : k' = k0
        · subst h'; simp [setKey, lookupKey]
        · have h2 : ¬ (k0 = k') := fun hh => h' hh.symm
          simp [setKey, lookupKey, h', h2]
      · by_cases h' : k' = k0
        · subst h'
          have h2 : ¬ (k' = k) := fun hh => hk (hh ▸ rfl)
          simp [setKey, lookupKey, hk, h2]
        · have h2 : ¬ (k0 = k') := fun hh => h' hh.symm
          simp [setKey, lookupKey, hk, h', h2, ih k']

theorem lookupKey_removeKey (k : String) :
    ∀ d k', lookupKey (removeKey d k) k' = if k' = k then none else lookupKey d k' := by
  intro d
  induction d with
  | nil =>
      intro k'
      by_cases h : k' = k <;> simp [removeKey, lookupKey, h]
  | cons p rest ih =>
      intro k'
      obtain ⟨k0, v0⟩ := p
      by_cases h0 : k0 = k
      · subst h0
        have hr : removeKey ((k0, v0) :: rest) k0 = removeKey rest k0 := by
          simp [removeKey]
        rw [hr, ih k']
        by_cases h' : k' = k0
        · simp [h']
        · have h2 : ¬ (k0 = k') := fun hh => h' hh.symm
          simp [h', h2, lookupKey]
      · have hr : removeKey ((k0, v0) :: rest) k = (k0, v0) :: removeKey rest k := by
          simp [removeKey, h0]
        rw [hr]
        by_cases h' : k' = k0
        · subst h'
          have h2 : ¬ (k' = k) := fun hh => h0 (hh ▸ rfl)
          simp [lookupKey, h2]
        · have h2 : ¬ (k0 = k') := fun hh => h' hh.symm
          simp [lookupKey, h2, ih k']

theorem lookupKey_append (d e : List (String × Json)) (k : String) :
    lookupKey (d ++ e) k = match lookupKey d k with
      | some v => some v
      | none => lookupKey e k := by
  induction d with
  | nil => simp [lookupKey]
  | cons p rest ih =>
      obtain ⟨k0, v0⟩ := p
      by_cases h : k0 = k <;> simp [lookupKey, h, ih]

theorem lookupKey_dictMerge :
    ∀ (b a : List (String × Json)), NodupKeys b →
      ∀ k, lookupKey (dictMerge a b) k = match lookupKey b k with
        | some v => some v
        | none => lookupKey a k := by
  intro b
  induction b with
  | nil => intro a _ k; simp [dictMerge, lookupKey]
  | cons p rest ih =>
      intro a hnd k
      obtain ⟨k0, v0⟩ := p
      have hrest : NodupKeys rest := by
        simpa [NodupKeys] using (List.nodup_cons.mp hnd).2
      have hk0 : k0 ∉ rest.map Prod.fst := by
        simpa [NodupKeys] using (List.nodup_cons.mp hnd).1
      have hmerge : dictMerge a ((k0, v0) :: rest) = dictMerge (setKey a k0 v0) rest := by
        simp [dictMerge]
      rw [hmerge, ih (setKey a k0 v0) hrest k]
      by_cases h : k = k0
      · subst h
        rw [lookupKey_eq_none_of_not_mem rest k hk0]
        simp [lookupKey, lookupKey_setKey]
      · have h2 : ¬ (k0 = k) := fun hh => h hh.symm
        simp [lookupKey, h2, lookupKey_setKey, h]

theorem keys_setKey (k : String) (v : Json) :
    ∀ d, (setKey d k v).map Prod.fst = if hasKey d k then d.map Prod.fst
      else d.map Prod.fst ++ [k] := by
  intro d
  induction d with
  | nil => simp [setKey, hasKey, lookupKey]
  | cons p rest ih =>
      obtain ⟨k0, v0⟩ := p
      by_cases h : k0 = k
      · subst h; simp [setKey, hasKey, lookupKey]
      · simp only [setKey, if_neg h, List.map_cons, hasKey, lookupKey, h, if_false]
        rw [ih]
        by_cases hh : hasKey rest k
        · rw [if_pos hh, if_pos (by simpa [hasKey] using hh)]
        · rw [if_neg hh, if_neg (by simpa [hasKey] using hh)]
          simp

theorem NodupKeys_setKey (k : String) (v : Json) :
    ∀ d, NodupKeys d → NodupKeys (setKey d k v) := by
  intro d
  induction d with
  | nil => intro _; simp [setKey, NodupKeys]
  | cons p rest ih =>
      intro hnd
      obtain ⟨k0, v0⟩ := p
      have h1 : k0 ∉ rest.map Prod.fst := by
        simpa [NodupKeys] using (List.nodup_cons.mp hnd).1
      have h2 : NodupKeys rest := by
        simpa [NodupKeys] using (List.nodup_cons.mp hnd).2
      by_cases h : k0 = k
      · subst h
        simpa [setKey, NodupKeys] using hnd
      · simp only [setKey, if_neg h, NodupKeys, List.map_cons, List.nodup_cons]
        refine ⟨?_, by simpa [NodupKeys] using ih h2⟩
        rw [keys_setKey]
        by_cases hh : hasKey rest k
        · rw [if_pos hh]; exact h1
        · rw [if_neg hh]
          intro hmem
          rcases List.mem_append.mp hmem with hmem1 | hmem2
          · exact h1 hmem1
          · exact h (List.mem_singleton.mp hmem2)

theorem lookupKey_isSome_iff_mem :
    ∀ (d : List (String × Json)) (k : String),
      (lookupKey d k).isSome ↔ k ∈ d.map Prod.fst := by
  intro d
  induction d with
  | nil => intro k; simp [lookupKey]
  | cons p rest ih =>
      intro k
      obtain ⟨k0, v0⟩ := p
      by_cases h : k0 = k
      · subst h; simp [lookupKey]
      · have h2 : ¬ (k = k0) := fun hh => h hh.symm
        simp [lookupKey, h, h2, ih k]

/-! ### Canonicalization lemmas (Python dict equality) -/

theorem lookupKey_canonFields :
    ∀ (d : List (String × Json)) (k : String),
      lookupKey (canonFields d) k = (lookupKey d k).map canon := by
  intro d
  induction d with
  | nil => intro k; simp [canonFields, lookupKey]
  | cons p rest ih =>
      intro k
      obtain ⟨k0, v0⟩ := p
      by_cases h : k0 = k <;> simp [canonFields, lookupKey, h, ih]

theorem lookupKey_dedupKeys :
    ∀ (d : List (String × Json)) (seen : List String) (k : String),
      lookupKey (dedupKeys seen d) k =
        if k ∈ seen then none else lookupKey d k := by
  intro d
  induction d with
  | nil => intro seen k; by_cases h : k ∈ seen <;> simp [dedupKeys, lookupKey, h]
  | cons p rest ih =>
      intro seen k
      obtain ⟨k0, v0⟩ := p
      by_cases h0 : k0 ∈ seen
      · rw [show dedupKeys seen ((k0, v0) :: rest) = dedupKeys seen rest by
            simp [dedupKeys, h0], ih]
        by_cases hk : k ∈ seen
        · simp [hk]
        · have hne : ¬ (k0 = k) := fun hh => hk (hh ▸ h0)
          simp [hk, lookupKey, hne]
      · rw [show dedupKeys seen ((k0, v0) :: rest) = (k0, v0) :: dedupKeys (k0 :: seen) rest by
            simp [dedupKeys, h0]]
        by_cases hk : k0 = k
        · subst hk
          simp [lookupKey, h0]
        · rw [show lookupKey ((k0, v0) :: dedupKeys (k0 :: seen) rest) k =
              lookupKey (dedupKeys (k0 :: seen) rest) k by simp [lookupKey, hk]]
          rw [ih]
          by_cases hks : k ∈ seen
          · simp [hks, List.mem_cons]
          · have hne : k ∉ k0 :: seen := by
              intro hmem
              rcases List.mem_cons.mp hmem with rfl | hmem2
              · exact hk rfl
              · exact hks hmem2
            simp [hks, hne, lookupKey, hk]

theorem NodupKeys_dedupKeys :
    ∀ (d : List (String × Json)) (seen : List String),
      NodupKeys (dedupKeys seen d) ∧
        ∀ k ∈ (dedupKeys seen d).map Prod.fst, k ∉ seen := by
  intro d
  induction d with
  | nil => intro seen; simp [dedupKeys, NodupKeys]
  | cons p rest ih =>
      intro seen
      obtain ⟨k0, v0⟩ := p
      by_cases h0 : k0 ∈ seen
      · rw [show dedupKeys seen ((k0, v0) :: rest) = dedupKeys seen rest by
            simp [dedupKeys, h0]]
        exact ih seen
      · rw [show dedupKeys seen ((k0, v0) :: rest) = (k0, v0) :: dedupKeys (k0 :: seen) rest by
            simp [dedupKeys, h0]]
        obtain ⟨ihn, ihs⟩ := ih (k0 :: seen)
        refine ⟨?_, ?_⟩
        · simp only [NodupKeys, List.map_cons, List.nodup_cons]
          refine ⟨fun hmem => ?_, ihn⟩
          exact ihs k0 hmem (by simp)
        · intro k hk
          rcases List.mem_cons.mp hk with rfl | hk2
          · exact h0
          · intro hcon
            exact ihs k hk2 (List.mem_cons.mpr (Or.inr hcon))

theorem charListLe_refl : ∀ x, charListLe x x = true := by
  intro x
  induction x with
  | nil => rfl
  | cons a as ih => simp [charListLe, ih]

theorem charListLe_total : ∀ x y, charListLe x y = true ∨ charListLe y x = true := by
  intro x
  induction x with
  | nil => intro y; left; rfl
  | cons a as ih =>
      intro y
      cases y with
      | nil => right; rfl
      | cons b bs =>
          rcases Nat.lt_trichotomy a.toNat b.toNat with h | h | h
          · left; simp [charListLe, h]
          · rcases ih bs with h2 | h2
            · left; simp [charListLe, h, h2]
            · right; simp [charListLe, h, h2]
          · right; simp [charListLe, h]

theorem charListLe_trans :
    ∀ x y z, charListLe x y = true → charListLe y z = true → charListLe x z = true := by
  intro x
  induction x with
  | nil => intro y z _ _; rfl
  | cons a as ih =>
      intro y z hxy hyz
      cases y with
      | nil => simp [charListLe] at hxy
      | cons b bs =>
          cases z with
          | nil => simp [charListLe] at hyz
          | cons c cs =>
              rcases Nat.lt_trichotomy a.toNat b.toNat with hab | hab | hab
              · rcases Nat.lt_trichotomy b.toNat c.toNat with hbc | hbc | hbc
                · simp [charListLe, Nat.lt_trans hab hbc]
                · simp [charListLe, hbc ▸ hab]
                · simp [charListLe, Nat.lt_asymm hbc, hbc] at hyz
              · rcases Nat.lt_trichotomy b.toNat c.toNat with hbc | hbc | hbc
                · simp [charListLe, hab ▸ hbc]
                · have h1 : charListLe as bs = true := by
                    simpa [charListLe, hab] using hxy
                  have h2 : charListLe bs cs = true := by
                    simpa [charListLe, hbc] using hyz
                  simp [charListLe, hab, hbc, ih bs cs h1 h2]
                · simp [charListLe, Nat.lt_asymm hbc, hbc] at hyz
              · simp [charListLe, Nat.lt_asymm hab, hab] at hxy

theorem charListLe_antisymm :
    ∀ x y, charListLe x y = true → charListLe y x = true → x = y := by
  intro x
  induction x with
  | nil =>
      intro y h1 h2
      cases y with
      | nil => rfl
      | cons b bs => simp [charListLe] at h2
  | cons a as ih =>
      intro y h1 h2
      cases y with
      | nil => simp [charListLe] at h1
      | cons b bs =>
          rcases Nat.lt_trichotomy a.toNat b.toNat with hab | hab | hab
          · simp [charListLe, hab, Nat.lt_asymm hab] at h2
          · have hc : a = b :=
              Char.eq_of_val_eq (UInt32.eq_of_toBitVec_eq (BitVec.eq_of_toNat_eq hab))
            subst hc
            have t1 : charListLe as bs = true := by simpa [charListLe] using h1
            have t2 : charListLe bs as = true := by simpa [charListLe] using h2
            rw [ih bs t1 t2]
          · simp [charListLe, hab, Nat.lt_asymm hab] at h1

theorem keyLe_refl (a : String) : keyLe a a = true := charListLe_refl _

theorem keyLe_total (a b : String) : keyLe a b = true ∨ keyLe b a = true :=
  charListLe_total _ _

theorem keyLe_trans {a b c : String} (h1 : keyLe a b = true) (h2 : keyLe b c = true) :
    keyLe a c = true :=
  charListLe_trans _ _ _ h1 h2

theorem keyLe_antisymm {a b : String} (h1 : keyLe a b = true) (h2 : keyLe b a = true) :
    a = b := by
  have hd := charListLe_antisymm _ _ h1 h2
  cases a; cases b
  simp only at hd
  rw [hd]

/-- Membership in an insertion-sorted extension. -/
theorem mem_insertByKey :
    ∀ (l : List (String × Json)) (p q : String × Json),
      q ∈ insertByKey p l ↔ q = p ∨ q ∈ l := by
  intro l
  induction l with
  | nil => intro p q; simp [insertByKey]
  | cons r rest ih =>
      intro p q
      by_cases h : keyLe p.1 r.1
      · simp [insertByKey, h]
      · simp [insertByKey, h, ih]
        tauto

theorem sorted_insertByKey (p : String × Json) :
    ∀ (l : List (String × Json)),
      l.Pairwise (fun x y => keyLe x.1 y.1 = true) →
      (insertByKey p l).Pairwise (fun x y => keyLe x.1 y.1 = true) := by
  intro l
  induction l with
  | nil => intro _; simp [insertByKey]
  | cons r rest ih =>
      intro hp
      obtain ⟨hr, hrest⟩ := List.pairwise_cons.mp hp
      by_cases h : keyLe p.1 r.1
      · rw [show insertByKey p (r :: rest) = p :: r :: rest by simp [insertByKey, h]]
        refine List.pairwise_cons.mpr ⟨?_, hp⟩
        intro x hx
        rcases List.mem_cons.mp hx with rfl | hx2
        · exact h
        · exact keyLe_trans h (hr x hx2)
      · rw [show insertByKey p (r :: rest) = r :: insertByKey p rest by simp [insertByKey, h]]
        refine List.pairwise_cons.mpr ⟨?_, ih hrest⟩
        intro x hx
        rcases (mem_insertByKey rest p x).mp hx with rfl | hx2
        · rcases keyLe_total x.1 r.1 with h2 | h2
          · exact absurd h2 h
          · exact h2
        · exact hr x hx2

theorem keys_insertByKey_perm (p : String × Json) :
    ∀ (l : List (String × Json)),
      List.Perm ((insertByKey p l).map Prod.fst) (p.1 :: l.map Prod.fst) := by
  intro l
  induction l with
  | nil => simp [insertByKey]
  | cons r rest ih =>
      by_cases h : keyLe p.1 r.1
      · simp [insertByKey, h]
      · rw [show insertByKey p (r :: rest) = r :: insertByKey p rest by simp [insertByKey, h]]
        simp only [List.map_cons]
        exact List.Perm.trans (List.Perm.cons r.1 ih) (List.Perm.swap _ _ _)

theorem lookupKey_insertByKey (p : String × Json) :
    ∀ (l : List (String × Json)), p.1 ∉ l.map Prod.fst →
      ∀ k, lookupKey (insertByKey p l) k = lookupKey (p :: l) k := by
  intro l
  induction l with
  | nil => intro _ k; simp [insertByKey]
  | cons r rest ih =>
      intro hnot k
      simp only [List.map_cons, List.mem_cons] at hnot
      push_neg at hnot
      by_cases h : keyLe p.1 r.1
      · rw [show insertByKey p (r :: rest) = p :: r :: rest by simp [insertByKey, h]]
      · rw [show insertByKey p (r :: rest) = r :: insertByKey p rest by simp [insertByKey, h]]
        by_cases hr : r.1 = k
        · subst hr
          have hpk : ¬ (p.1 = r.1) := hnot.1
          simp [lookupKey, hpk]
        · by_cases hp : p.1 = k
          · subst hp
            rw [show lookupKey (r :: insertByKey p rest) p.1 =
                lookupKey (insertByKey p rest) p.1 by simp [lookupKey, hr]]
            rw [ih hnot.2 p.1]
            simp [lookupKey]
          · rw [show lookupKey (r :: insertByKey p rest) k =
                lookupKey (insertByKey p rest) k by simp [lookupKey, hr]]
            rw [ih hnot.2 k]
            simp [lookupKey, hr, hp]

theorem keys_sortByKey_perm :
    ∀ (l : List (String × Json)),
      List.Perm ((sortByKey l).map Prod.fst) (l.map Prod.fst) := by
  intro l
  induction l with
  | nil => simp [sortByKey]
  | cons p rest ih =>
      rw [show sortByKey (p :: rest) = insertByKey p (sortByKey rest) by simp [sortByKey]]
      exact List.Perm.trans (keys_insertByKey_perm p _)
        (by simpa using List.Perm.cons p.1 ih)

theorem sorted_sortByKey :
    ∀ (l : List (String × Json)),
      (sortByKey l).Pairwise (fun x y => keyLe x.1 y.1 = true) := by
  intro l
  induction l with
  | nil => simp [sortByKey]
  | cons p rest ih => exact sorted_insertByKey p _ ih

theorem NodupKeys_sortByKey (l : List (String × Json)) (h : NodupKeys l) :
    NodupKeys (sortByKey l) :=
  ((keys_sortByKey_perm l).nodup_iff).mpr h

theorem lookupKey_sortByKey :
    ∀ (l : List (String × Json)), NodupKeys l →
      ∀ k, lookupKey (sortByKey l) k = lookupKey l k := by
  intro l
  induction l with
  | nil => intro _ k; simp [sortByKey]
  | cons p rest ih =>
      intro hnd k
      have h1 : p.1 ∉ rest.map Prod.fst := by
        simpa [NodupKeys] using (List.nodup_cons.mp hnd).1
      have h2 : NodupKeys rest := by
        simpa [NodupKeys] using (List.nodup_cons.mp hnd).2
      have h1s : p.1 ∉ (sortByKey rest).map Prod.fst := fun hmem =>
        h1 ((keys_sortByKey_perm rest).mem_iff.mp hmem)
      rw [show sortByKey (p :: rest) = insertByKey p (sortByKey rest) by simp [sortByKey]]
      rw [lookupKey_insertByKey p _ h1s k]
      by_cases hp : p.1 = k <;> simp [lookupKey, hp, ih h2 k]

/-- Two key-sorted association lists without duplicate keys that agree on
every lookup are equal. -/
theorem sorted_nodup_lookup_ext :
    ∀ (a b : List (String × Json)),
      a.Pairwise (fun x y => keyLe x.1 y.1 = true) →
      b.Pairwise (fun x y => keyLe x.1 y.1 = true) →
      NodupKeys a → NodupKeys b →
      (∀ k, lookupKey a k = lookupKey b k) → a = b := by
  intro a
  induction a with
  | nil =>
      intro b _ _ _ _ hl
      cases b with
      | nil => rfl
      | cons q bs =>
          exfalso
          have := hl q.1
          simp [lookupKey] at this
  | cons p as ih =>
      intro b hpa hpb hna hnb hl
      cases b with
      | nil =>
          exfalso
          have := hl p.1
          simp [lookupKey] at this
      | cons q bs =>
          have hpq : p.1 = q.1 := by
            have hmem_b : p.1 ∈ (q :: bs).map Prod.fst := by
              rw [← lookupKey_isSome_iff_mem, ← hl p.1]
              simp [lookupKey]
            have hmem_a : q.1 ∈ (p :: as).map Prod.fst := by
              rw [← lookupKey_isSome_iff_mem, hl q.1]
              simp [lookupKey]
            have h1 : keyLe q.1 p.1 = true := by
              rcases List.mem_cons.mp hmem_b with heq | hmem
              · exact heq ▸ keyLe_refl q.1
              · obtain ⟨x, hx, hxe⟩ := List.mem_map.mp hmem
                exact hxe ▸ (List.pairwise_cons.mp hpb).1 x hx
            have h2 : keyLe p.1 q.1 = true := by
              rcases List.mem_cons.mp hmem_a with heq | hmem
              · exact heq ▸ keyLe_refl p.1
              · obtain ⟨x, hx, hxe⟩ := List.mem_map.mp hmem
                exact hxe ▸ (List.pairwise_cons.mp hpa).1 x hx
            exact keyLe_antisymm h2 h1
          have hv : p.2 = q.2 := by
            have h3 := hl p.1
            rw [show lookupKey (p :: as) p.1 = some p.2 from by simp [lookupKey]] at h3
            rw [show lookupKey (q :: bs) p.1 = some q.2 from by simp [lookupKey, hpq.symm]] at h3
            exact Option.some.inj h3
          have hpq' : p = q := by
            obtain ⟨p1, p2⟩ := p
            obtain ⟨q1, q2⟩ := q
            simp only at hpq hv
            rw [hpq, hv]
          subst hpq'
          have hna2 : NodupKeys as := by
            simpa [NodupKeys] using (List.nodup_cons.mp hna).2
          have hnb2 : NodupKeys bs := by
            simpa [NodupKeys] using (List.nodup_cons.mp hnb).2
          have hnota : p.1 ∉ as.map Prod.fst := by
            simpa [NodupKeys] using (List.nodup_cons.mp hna).1
          have hnotb : p.1 ∉ bs.map Prod.fst := by
            simpa [NodupKeys] using (List.nodup_cons.mp hnb).1
          have hl2 : ∀ k, lookupKey as k = lookupKey bs k := by
            intro k
            by_cases hk : k = p.1
            · subst hk
              rw [lookupKey_eq_none_of_not_mem as p.1 hnota,
                lookupKey_eq_none_of_not_mem bs p.1 hnotb]
            · have := hl k
              have hne : ¬ (p.1 = k) := fun hh => hk hh.symm
              simpa [lookupKey, hne] using this
          rw [ih bs (List.pairwise_cons.mp hpa).2 (List.pairwise_cons.mp hpb).2
            hna2 hnb2 hl2]

/-- Dicts whose lookups agree up to canonicalization have equal canonical
forms. -/
theorem canon_obj_ext_map (a b : List (String × Json))
    (h : ∀ k, Option.map canon (lookupKey a k) = Option.map canon (lookupKey b k)) :
    canon (.obj a) = canon (.obj b) := by
  have hAn := (NodupKeys_dedupKeys (canonFields a) []).1
  have hBn := (NodupKeys_dedupKeys (canonFields b) []).1
  have hlk : ∀ k, lookupKey (dedupKeys [] (canonFields a)) k =
      lookupKey (dedupKeys [] (canonFields b)) k := by
    intro k
    rw [lookupKey_dedupKeys, lookupKey_dedupKeys]
    simp [lookupKey_canonFields, h k]
  have : sortByKey (dedupKeys [] (canonFields a)) =
      sortByKey (dedupKeys [] (canonFields b)) := by
    apply sorted_nodup_lookup_ext
    · exact sorted_sortByKey _
    · exact sorted_sortByKey _
    · exact NodupKeys_sortByKey _ hAn
    · exact NodupKeys_sortByKey _ hBn
    · intro k
      rw [lookupKey_sortByKey _ hAn k, lookupKey_sortByKey _ hBn k]
      exact hlk k
  simp [canon, this]

/-- Pointwise-equal dicts are Python-`==`. -/
theorem canon_obj_ext (a b : List (String × Json))
    (h : ∀ k, lookupKey a k = lookupKey b k) :
    canon (.obj a) = canon (.obj b) :=
  canon_obj_ext_map a b (fun k => by rw [h k])

theorem removeKey_sublist (d : List (String × Json)) (k : String) :
    List.Sublist (removeKey d k) d :=
  List.filter_sublist d

theorem NodupKeys_removeKey (d : List (String × Json)) (k : String)
    (h : NodupKeys d) : NodupKeys (removeKey d k) :=
  List.Nodup.sublist (List.Sublist.map Prod.fst (removeKey_sublist d k)) h

theorem NodupKeys_append_single (d : List (String × Json)) (k : String) (v : Json)
    (h : NodupKeys d) (hk : k ∉ d.map Prod.fst) : NodupKeys (d ++ [(k, v)]) := by
  simp only [NodupKeys, List.map_append, List.map_cons, List.map_nil]
  rw [List.nodup_append]
  refine ⟨h, List.nodup_singleton k, ?_⟩
  intro a ha hmem
  rw [List.mem_singleton] at hmem
  exact hk (hmem ▸ ha)

theorem mem_keys_removeKey (d : List (String × Json)) (k k' : String)
    (h : k' ∈ (removeKey d k).map Prod.fst) : k' ∈ d.map Prod.fst :=
  (List.Sublist.map Prod.fst (removeKey_sublist d k)).mem h

theorem NodupKeys_email_alias_norm (d : List (String × Json)) (h : NodupKeys d) :
    NodupKeys (email_alias_norm d) := by
  unfold email_alias_norm
  by_cases hc : hasKey d "email" && !hasKey d "mail"
  · rw [if_pos hc]
    have hc2 : hasKey d "email" = true ∧ hasKey d "mail" = false := by
      simpa using hc
    have hmail : "mail" ∉ d.map Prod.fst := by
      rw [← lookupKey_isSome_iff_mem]
      have := hc2.2
      rw [hasKey] at this
      simp [this]
    exact NodupKeys_append_single _ _ _ (NodupKeys_removeKey d "email" h)
      (fun hmem => hmail (mem_keys_removeKey d "email" "mail" hmem))
  · rw [if_neg hc]; exact h

/-! ### Claim C1 -/

/-- C1 (code bug): the tool-call handler is supposed to run the permissive
completion variant before dispatching, but server.py line 521 invokes
`field_validator.auto_complete_fields`, an attribute `BexioFieldValidator`
does not define; for every governed operation (in particular the six the
claim lists) the completion step raises `AttributeError` instead of
returning a completed payload, so the step never succeeds. -/
theorem claim_C1_completion_step_fails :
    ∀ arguments : Json,
      (∀ name ∈ (["create_contact", "update_contact", "create_invoice",
          "create_quote", "create_project", "create_item"] : List String),
        callToolCompletionStep name arguments =
          .error "AttributeError: BexioFieldValidator object has no attribute auto_complete_fields") ∧
      bexioFieldValidatorMethods.contains "auto_complete_fields" = false := by
  intro arguments
  refine ⟨?_, by decide⟩
  intro name hname
  fin_cases hname <;> rfl

/-! ### Claim C2 -/

/-- C2 (counterexample): `create_invoice` on the empty payload does fail
before any network call, but its error is the contact message alone — it
does not name the missing line-item collection ("position" does not occur
in it), contradicting "the error names both". -/
theorem claim_C2_counterexample :
    create_invoice (fun _ => .error "offline") [] = (.error invoiceContactErr, []) ∧
    pyInStr "contact_id" invoiceContactErr = true ∧
    pyInStr "position" invoiceContactErr = false := by
  exact ⟨rfl, rfl, rfl⟩

/-- C2 (amended): every invoice payload lacking a truthy contact reference
or lacking a non-empty line-item list fails before any network call; the
empty payload's error names the missing contact reference only (the
contact check runs first), while a payload that passes the contact check
but lacks a non-empty positions list gets the error naming the line-item
collection. -/
theorem claim_C2_amended :
    ∀ (net : Net) (payload : List (String × Json)),
      (truthy (pyGetD payload "contact_id" .null) = false →
        create_invoice net payload = (.error invoiceContactErr, [])) ∧
      (truthy (pyGetD payload "contact_id" .null) = true →
        (match lookupKey payload "positions" with
          | some (.arr ps) => ps.isEmpty
          | _ => true) = true →
        create_invoice net payload = (.error invoicePositionsErr, [])) ∧
      pyInStr "contact_id" invoiceContactErr = true ∧
      pyInStr "position" invoicePositionsErr = true := by
  intro net payload
  refine ⟨?_, ?_, rfl, rfl⟩
  · intro h
    simp [create_invoice, h]
  · intro h hpos
    unfold create_invoice
    rw [show (!truthy (pyGetD payload "contact_id" .null)) = false by simp [h]]
    simp only [Bool.false_eq_true, if_false]
    cases hcase : lookupKey payload "positions" with
    | none => rfl
    | some v =>
        rw [hcase] at hpos
        cases v with
        | arr ps =>
            cases ps with
            | nil => rfl
            | cons a as => simp at hpos
        | null => rfl
        | bool b => rfl
        | int n => rfl
        | float q => rfl
        | str s => rfl
        | obj kvs => rfl

/-- C2 witness. -/
theorem claim_C2_witness :
    create_invoice (fun _ => .error "offline") [] = (.error invoiceContactErr, []) ∧
    create_invoice (fun _ => .error "offline") [("contact_id", .int 5)] =
      (.error invoicePositionsErr, []) := by
  constructor
  · exact (claim_C2_amended (fun _ => .error "offline") []).1 rfl
  · exact (claim_C2_amended (fun _ => .error "offline") [("contact_id", .int 5)]).2.1 rfl rfl

/-! ### Claim C10 -/

/-- C10: both contact write paths normalize the caller payload by moving
`email` to `mail` when `mail` is absent (other keys untouched; an existing
`mail` key suppresses the move entirely), and the bodies sent upstream are
built from exactly this normalized payload: `create_contact` POSTs it,
`update_contact` PUTs its merge over the fetched entity and PUTs it alone
when the fetch fails. -/
theorem claim_C10_email_alias :
    (∀ d, hasKey d "email" = true → hasKey d "mail" = false →
        hasKey (email_alias_norm d) "email" = false ∧
        lookupKey (email_alias_norm d) "mail" = lookupKey d "email" ∧
        (∀ k, k ≠ "email" → k ≠ "mail" →
          lookupKey (email_alias_norm d) k = lookupKey d k)) ∧
    (∀ d, hasKey d "mail" = true → email_alias_norm d = d) ∧
    (∀ (net : Net) d, (create_contact net d).2 =
        [HttpReq.mk "POST" "/contact" (some (.obj (email_alias_norm d))) []]) ∧
    (∀ (net : Net) cid d e, net (get_contact_req cid) = .error e →
        (update_contact net cid d).2 =
          [get_contact_req cid,
           HttpReq.mk "PUT" ("/contact/" ++ toString cid)
             (some (.obj (email_alias_norm d))) []]) ∧
    (∀ (net : Net) cid d existing, net (get_contact_req cid) = .ok (.obj existing) →
        ∃ rest, (update_contact net cid d).2 =
          get_contact_req cid ::
            HttpReq.mk "PUT" ("/contact/" ++ toString cid)
              (some (.obj (dictMerge existing (email_alias_norm d)))) [] :: rest) := by
  refine ⟨?_, ?_, ?_, ?_, ?_⟩
  · intro d hemail hmail
    have hcond : (hasKey d "email" && !hasKey d "mail") = true := by
      simp [hemail, hmail]
    have hnorm : email_alias_norm d =
        removeKey d "email" ++ [("mail", pyGetD d "email" .null)] := by
      simp [email_alias_norm, hcond]
    refine ⟨?_, ?_, ?_⟩
    · rw [hnorm]
      simp only [hasKey, lookupKey_append, lookupKey_removeKey]
      simp [lookupKey]
    · rw [hnorm]
      have hm : lookupKey d "mail" = none := by
        cases hcm : lookupKey d "mail" with
        | none => rfl
        | some w => rw [hasKey, hcm] at hmail; simp at hmail
      obtain ⟨v, hv⟩ : ∃ v, lookupKey d "email" = some v := by
        cases hce : lookupKey d "email" with
        | none => rw [hasKey, hce] at hemail; simp at hemail
        | some w => exact ⟨w, rfl⟩
      rw [lookupKey_append, lookupKey_removeKey,
        if_neg (by decide : ¬ ("mail" = "email")), hm, hv]
      simp [lookupKey, pyGetD, hv]
    · intro k hk1 hk2
      rw [hnorm]
      rw [lookupKey_append, lookupKey_removeKey, if_neg hk1]
      cases hc : lookupKey d k with
      | none =>
          have hne : ¬ ("mail" = k) := fun hh => hk2 hh.symm
          simp [lookupKey, hne]
      | some v => simp
  · intro d hmail
    simp [email_alias_norm, hmail]
  · intro net d; rfl
  · intro net cid d e h
    simp [update_contact, h]
  · intro net cid d existing h
    simp only [update_contact]
    rw [h]
    cases hput : net (HttpReq.mk "PUT" ("/contact/" ++ toString cid)
        (some (.obj (dictMerge existing (email_alias_norm d)))) []) with
    | ok r => exact ⟨[], by simp [hput]⟩
    | error e =>
        exact ⟨[HttpReq.mk "PUT" ("/contact/" ++ toString cid)
          (some (.obj (email_alias_norm d))) []], by simp [hput]⟩

/-- C10 witness. -/
theorem claim_C10_witness :
    hasKey (email_alias_norm [("email", Json.str "a@b.c"), ("city", Json.str "Bern")])
      "email" = false ∧
    lookupKey (email_alias_norm [("email", Json.str "a@b.c"), ("city", Json.str "Bern")])
      "mail" = some (Json.str "a@b.c") ∧
    email_alias_norm [("email", Json.str "e"), ("mail", Json.str "m")] =
      [("email", Json.str "e"), ("mail", Json.str "m")] := by
  obtain ⟨h1, h2, _⟩ :=
    claim_C10_email_alias.1 [("email", Json.str "a@b.c"), ("city", Json.str "Bern")] rfl rfl
  refine ⟨h1, ?_, ?_⟩
  · rw [h2]; rfl
  · exact claim_C10_email_alias.2.1 [("email", Json.str "e"), ("mail", Json.str "m")] rfl

/-! ### Claim C5 -/

/-- C5 (counterexample): updating contact 7 with the caller payload
`\x7bemail:"x"\x7d` against an existing entity `\x7b\x7d` sends the body
`\x7bmail:"x"\x7d`, which is not the merge of the existing fields with the
caller's fields (`\x7bemail:"x"\x7d`): the Gateway merges the *normalized*
payload, not the caller's fields as the claim states. -/
theorem claim_C5_counterexample :
    (update_contact netEmptyContact 7 [("email", Json.str "x")]).2 =
      [get_contact_req 7,
       HttpReq.mk "PUT" "/contact/7" (some (.obj [("mail", Json.str "x")])) []] ∧
    ¬ (Json.obj [("mail", Json.str "x")] =
        Json.obj (dictMerge [] [("email", Json.str "x")])) ∧
    ¬ pyEq (Json.obj [("mail", Json.str "x")])
        (Json.obj (dictMerge [] [("email", Json.str "x")])) := by
  refine ⟨rfl, ?_, ?_⟩
  · intro h
    have h2 := congrArg (fun j => match j with
      | Json.obj kvs => kvs.map Prod.fst
      | _ => ([] : List String)) h
    simp [dictMerge, setKey] at h2
  · intro h
    have h2 := congrArg (fun j => match j with
      | Json.obj kvs => kvs.map Prod.fst
      | _ => ([] : List String)) h
    simp [canon, canonFields, dedupKeys, sortByKey, insertByKey,
      dictMerge, setKey] at h2

/-- C5 (amended): for every contact update the Gateway first normalizes
the caller payload (renaming `email` to `mail` when `mail` is absent),
fetches the current entity and sends the merge of the existing fields with
the *normalized* caller fields, normalized values winning on conflicts
(so `\x7ba:1,b:2,c:3\x7d` updated with `\x7bb:20\x7d` yields
`\x7ba:1,b:20,c:3\x7d`); when the fetch-then-merge step fails (fetch error
or a non-dict entity), it sends the normalized fields unmerged instead of
failing the operation. -/
theorem claim_C5_amended :
    (∀ (net : Net) cid d existing,
      NodupKeys (email_alias_norm d) →
      net (get_contact_req cid) = .ok (.obj existing) →
      (∃ rest, (update_contact net cid d).2 =
        get_contact_req cid ::
          HttpReq.mk "PUT" ("/contact/" ++ toString cid)
            (some (.obj (dictMerge existing (email_alias_norm d)))) [] :: rest) ∧
      (∀ k, lookupKey (dictMerge existing (email_alias_norm d)) k =
        match lookupKey (email_alias_norm d) k with
        | some v => some v
        | none => lookupKey existing k)) ∧
    (∀ (net : Net) cid d,
      (∀ kvs, net (get_contact_req cid) ≠ .ok (.obj kvs)) →
      update_contact net cid d =
        (net (HttpReq.mk "PUT" ("/contact/" ++ toString cid)
            (some (.obj (email_alias_norm d))) []),
         [get_contact_req cid,
          HttpReq.mk "PUT" ("/contact/" ++ toString cid)
            (some (.obj (email_alias_norm d))) []])) ∧
    dictMerge [("a", Json.int 1), ("b", Json.int 2), ("c", Json.int 3)]
        [("b", Json.int 20)] =
      [("a", Json.int 1), ("b", Json.int 20), ("c", Json.int 3)] := by
  refine ⟨?_, ?_, rfl⟩
  · intro net cid d existing hnd h
    constructor
    · simp only [update_contact]
      rw [h]
      cases hput : net (HttpReq.mk "PUT" ("/contact/" ++ toString cid)
          (some (.obj (dictMerge existing (email_alias_norm d)))) []) with
      | ok r => exact ⟨[], by simp [hput]⟩
      | error e =>
          exact ⟨[HttpReq.mk "PUT" ("/contact/" ++ toString cid)
            (some (.obj (email_alias_norm d))) []], by simp [hput]⟩
    · intro k
      exact lookupKey_dictMerge (email_alias_norm d) existing hnd k
  · intro net cid d hno
    simp only [update_contact]
    cases hget : net (get_contact_req cid) with
    | error e => rfl
    | ok v =>
        cases v with
        | obj kvs => exact absurd hget (hno kvs)
        | null => rfl
        | bool b => rfl
        | int n => rfl
        | float q => rfl
        | str s => rfl
        | arr xs => rfl

/-- C5 witness. -/
theorem claim_C5_witness :
    (∀ k, lookupKey (dictMerge
        [("a", Json.int 1), ("b", Json.int 2), ("c", Json.int 3)]
        (email_alias_norm [("b", Json.int 20)])) k =
      match lookupKey (email_alias_norm [("b", Json.int 20)]) k with
      | some v => some v
      | none => lookupKey [("a", Json.int 1), ("b", Json.int 2), ("c", Json.int 3)] k) ∧
    (∃ rest, (update_contact netABCContact 7 [("b", Json.int 20)]).2 =
      get_contact_req 7 ::
        HttpReq.mk "PUT" "/contact/7"
          (some (.obj (dictMerge
            [("a", Json.int 1), ("b", Json.int 2), ("c", Json.int 3)]
            (email_alias_norm [("b", Json.int 20)])))) [] :: rest) := by
  obtain ⟨hex, hpt⟩ := claim_C5_amended.1 netABCContact 7 [("b", Json.int 20)]
    [("a", Json.int 1), ("b", Json.int 2), ("c", Json.int 3)] (by decide) rfl
  exact ⟨hpt, hex⟩

/-! ### Claim C3 -/

theorem getPath_null : ∀ rest, getPath .null rest = .null := by
  intro rest; cases rest <;> rfl

theorem getPath_eq_specPathValue :
    ∀ (parts : List String) (v : Json),
      getPath v parts = (specPathValue v parts).getD .null := by
  intro parts
  induction parts with
  | nil => intro v; cases v <;> rfl
  | cons p rest ih =>
      intro v
      cases v with
      | obj kvs =>
          simp only [getPath, specPathValue]
          cases hc : lookupKey kvs p with
          | none => simp [pyGetD, hc, getPath_null]
          | some w => simp [pyGetD, hc, ih w]
      | null => rfl
      | bool b => rfl
      | int n => rfl
      | float q => rfl
      | str s => rfl
      | arr xs => rfl

theorem condTest_eq_specCriterionMatches (item : Json) (cond : List (String × Json))
    (hwf : condWellformed cond = true) :
    condTest item cond = specCriterionMatches item cond := by
  unfold condTest specCriterionMatches
  cases hf : pyGetD cond "field" .null with
  | str f =>
      by_cases hfe : f = ""
      · simp [hfe]
      · simp only [if_neg hfe]
        have hpath : getPath item (pySplit '.' f) =
            (specPathValue item (pySplit '.' f)).getD .null :=
          getPath_eq_specPathValue _ item
        cases hcrit : pyGetD cond "criteria" .null with
        | str s =>
            by_cases hse : s = ""
            · simp [specParseOp, hcrit, hse, hpath]
            · by_cases heq : pyLower s = "="
              · simp [specParseOp, hcrit, hse, heq, hpath]
              · by_cases hlike : pyLower s = "like"
                · simp [specParseOp, hcrit, hse, heq, hlike, hpath]
                · simp [specParseOp, hcrit, hse, heq, hlike, hpath]
        | null => simp [specParseOp, hcrit, truthy, hpath]
        | bool b =>
            have hwf2 : truthy (Json.bool b) = false := by
              unfold condWellformed at hwf
              rw [hcrit] at hwf
              simpa using (Bool.and_eq_true_iff.mp hwf).2
            simp [specParseOp, hcrit, hwf2, hpath]
        | int n =>
            have hwf2 : truthy (Json.int n) = false := by
              unfold condWellformed at hwf
              rw [hcrit] at hwf
              simpa using (Bool.and_eq_true_iff.mp hwf).2
            simp [specParseOp, hcrit, hwf2, hpath]
        | float q =>
            have hwf2 : truthy (Json.float q) = false := by
              unfold condWellformed at hwf
              rw [hcrit] at hwf
              simpa using (Bool.and_eq_true_iff.mp hwf).2
            simp [specParseOp, hcrit, hwf2, hpath]
        | arr xs =>
            have hwf2 : truthy (Json.arr xs) = false := by
              unfold condWellformed at hwf
              rw [hcrit] at hwf
              simpa using (Bool.and_eq_true_iff.mp hwf).2
            simp [specParseOp, hcrit, hwf2, hpath]
        | obj kvs =>
            have hwf2 : truthy (Json.obj kvs) = false := by
              unfold condWellformed at hwf
              rw [hcrit] at hwf
              simpa using (Bool.and_eq_true_iff.mp hwf).2
            simp [specParseOp, hcrit, hwf2, hpath]
  | null => simp [hf]
  | bool b => simp [hf]
  | int n => simp [hf]
  | float q => simp [hf]
  | arr xs => simp [hf]
  | obj kvs => simp [hf]

theorem pyMatches_eq_specMatches :
    ∀ (criteria : List Json) (item : Json),
      (∀ c ∈ criteria, ∃ kvs, c = Json.obj kvs ∧ condWellformed kvs = true) →
      pyMatches criteria item = specMatches criteria item := by
  intro criteria
  induction criteria with
  | nil => intro item _; rfl
  | cons c cs ih =>
      intro item hwf
      obtain ⟨kvs, hc, hkwf⟩ := hwf c (List.mem_cons_self _ _)
      subst hc
      have h2 := ih item (fun c2 hc2 => hwf c2 (List.mem_cons_of_mem _ hc2))
      unfold pyMatches specMatches at h2 ⊢
      simp only [List.all_cons, condTestJ]
      rw [condTest_eq_specCriterionMatches item kvs hkwf, h2]

/-- C3 (counterexample): a record whose `address` is null — so traversal of
`address.city` hits a non-mapping and "yields no value" — is nevertheless
KEPT by the filter when the criterion value is the string "None", because
the code renders the failed traversal as Python `str(None) = "None"` and
the `=` comparison succeeds; the claim says both comparisons fail for such
records, i.e. that this record is excluded. -/
theorem claim_C3_counterexample :
    filter_by_criteria [Json.obj [("address", Json.null)]]
        [Json.obj [("field", Json.str "address.city"), ("value", Json.str "None"),
                   ("criteria", Json.str "=")]] =
      [Json.obj [("address", Json.null)]] ∧
    pyStr (getPath (Json.obj [("address", Json.null)]) ["address", "city"]) = "None" :=
  ⟨rfl, rfl⟩

/-- C3 (amended): the client-side filter keeps exactly the records for
which every criterion matches, where `=` is exact string-equality and
`like` case-insensitive substring containment of the *rendered* values, an
unrecognized operator never matches (fail closed, no exception), and a
dotted-path traversal that hits a non-mapping or a missing key contributes
the null value rendered as the string "None" (so it fails any comparison
whose value does not match that rendering — in particular the Zürich
examples behave as claimed — but a criterion value like "None" can match
such records). -/
theorem claim_C3_amended :
    (∀ (items criteria : List Json),
      (∀ c ∈ criteria, ∃ kvs, c = Json.obj kvs ∧ condWellformed kvs = true) →
      filter_by_criteria items criteria = items.filter (specMatches criteria)) ∧
    condTestJ (Json.obj [("address", Json.obj [("city", Json.str "Zürich")])])
      zurichCond = true ∧
    condTestJ (Json.obj [("address", Json.null)]) zurichCond = false ∧
    condTestJ (Json.obj [("name_1", Json.str "no city")]) zurichCond = false ∧
    (∀ (item : Json) (kvs : List (String × Json)),
      condWellformed kvs = true → specParseOp kvs = .opUnknown →
      condTest item kvs = false) := by
  refine ⟨?_, rfl, rfl, rfl, ?_⟩
  · intro items criteria hwf
    unfold filter_by_criteria
    apply List.filter_congr
    intro item _
    exact pyMatches_eq_specMatches criteria item hwf
  · intro item kvs hwf hop
    rw [condTest_eq_specCriterionMatches item kvs hwf]
    unfold specCriterionMatches
    cases hf : pyGetD kvs "field" .null with
    | str f =>
        by_cases hfe : f = ""
        · simp [hfe]
        · simp [hfe, hop]
    | null => rfl
    | bool b => rfl
    | int n => rfl
    | float q => rfl
    | arr xs => rfl
    | obj kvs2 => rfl

/-- C3 witness. -/
theorem claim_C3_witness :
    filter_by_criteria
        [Json.obj [("name_1", Json.str "Acme Corp")], Json.obj [("name_1", Json.str "Other")]]
        [Json.obj [("field", Json.str "name_1"), ("value", Json.str "acme"),
                   ("criteria", Json.str "like")]] =
      ([Json.obj [("name_1", Json.str "Acme Corp")], Json.obj [("name_1", Json.str "Other")]]).filter
        (specMatches [Json.obj [("field", Json.str "name_1"), ("value", Json.str "acme"),
                                ("criteria", Json.str "like")]]) :=
  claim_C3_amended.1 _ _ (by
    intro c hc
    rw [List.mem_singleton] at hc
    subst hc
    exact ⟨_, rfl, rfl⟩)

/-! ### Claim C4 -/

theorem taxScan_spec :
    ∀ (l : List Json) (first : Json),
      (∀ t ∈ l, taxWellformed t = true) → taxWellformed first = true →
      taxScan first l = .ok (match l.find? preferredTax with
        | some t => taxIdOf t
        | none => taxIdOf first) := by
  intro l
  induction l with
  | nil =>
      intro first _ hf
      cases first with
      | obj kvs => simp [taxScan, List.find?, taxIdOf]
      | null => simp [taxWellformed] at hf
      | bool b => simp [taxWellformed] at hf
      | int n => simp [taxWellformed] at hf
      | float q => simp [taxWellformed] at hf
      | str s => simp [taxWellformed] at hf
      | arr xs => simp [taxWellformed] at hf
  | cons t rest ih =>
      intro first hwf hf
      have ht := hwf t (List.mem_cons_self _ _)
      have hrest : ∀ t2 ∈ rest, taxWellformed t2 = true :=
        fun t2 h2 => hwf t2 (List.mem_cons_of_mem _ h2)
      cases t with
      | obj kvs =>
          by_cases hact : truthy (pyGetD kvs "is_active" (.bool true))
          · have hok : ∃ b, pyGtZero (pyGetD kvs "percentage" (.int 0)) = .ok b := by
              rw [taxWellformed] at ht
              cases hg : pyGtZero (pyGetD kvs "percentage" (.int 0)) with
              | ok b => exact ⟨b, rfl⟩
              | error e => rw [hg] at ht; simp [hact] at ht
            obtain ⟨b, hb⟩ := hok
            cases b with
            | true =>
                have hpref : preferredTax (Json.obj kvs) = true := by
                  simp [preferredTax, hact, hb]
                simp [taxScan, hact, hb, List.find?, hpref, taxIdOf]
            | false =>
                have hpref : preferredTax (Json.obj kvs) = false := by
                  simp [preferredTax, hact, hb]
                rw [show taxScan first (Json.obj kvs :: rest) = taxScan first rest by
                  simp [taxScan, hact, hb]]
                rw [ih first hrest hf]
                simp [List.find?, hpref]
          · have hpref : preferredTax (Json.obj kvs) = false := by
              simp [preferredTax, hact]
            rw [show taxScan first (Json.obj kvs :: rest) = taxScan first rest by
              simp [taxScan, hact]]
            rw [ih first hrest hf]
            simp [List.find?, hpref]
      | null => simp [taxWellformed] at ht
      | bool b => simp [taxWellformed] at ht
      | int n => simp [taxWellformed] at ht
      | float q => simp [taxWellformed] at ht
      | str s => simp [taxWellformed] at ht
      | arr xs => simp [taxWellformed] at ht

/-- C6: default-tax resolution returns the id of the first upstream tax
marked active (absent marker counts as active) with a positive rate; if no
tax matches, the id of the first tax returned; the fixed constant `1` when
the taxes query fails or the collection is empty. -/
theorem claim_C6_default_tax :
    ∀ (net : Net),
      (∀ e, net taxReq = .error e → get_default_tax_id net = .int 1) ∧
      (net taxReq = .ok (.arr []) → get_default_tax_id net = .int 1) ∧
      (∀ taxes, net taxReq = .ok (.arr taxes) → taxes ≠ [] →
        (∀ t ∈ taxes, taxWellformed t = true) →
        get_default_tax_id net =
          match taxes.find? preferredTax with
          | some t => taxIdOf t
          | none => match taxes with
              | first :: _ => taxIdOf first
              | [] => .int 1) := by
  intro net
  refine ⟨?_, ?_, ?_⟩
  · intro e h; simp [get_default_tax_id, h]
  · intro h; simp [get_default_tax_id, h]
  · intro taxes h hne hwf
    cases taxes with
    | nil => exact absurd rfl hne
    | cons first rest =>
        rw [show get_default_tax_id net =
            (match taxScan first (first :: rest) with
              | .ok i => i
              | .error _ => .int 1) by simp [get_default_tax_id, h]]
        rw [taxScan_spec (first :: rest) first hwf (hwf first (List.mem_cons_self _ _))]

/-- C6 witness. -/
theorem claim_C6_witness :
    get_default_tax_id netTaxes = Json.int 4 ∧
    get_default_tax_id (fun _ => .error "offline") = .int 1 := by
  constructor
  · rw [(claim_C6_default_tax netTaxes).2.2
      [Json.obj [("id", Json.int 9), ("is_active", Json.bool false),
                 ("percentage", Json.float (77/10))],
       Json.obj [("id", Json.int 4), ("percentage", Json.int 8)]]
      rfl (by simp) (by
        intro t ht
        rcases List.mem_cons.mp ht with rfl | ht2
        · rfl
        · rcases List.mem_cons.mp ht2 with rfl | ht3
          · rfl
          · simp at ht3)]
    rfl
  · exact (claim_C6_default_tax (fun _ => .error "offline")).1 "offline" rfl

/-! ### Position-completion lemmas -/

theorem lookupKey_fillIfMissing_other (d : List (String × Json)) (k : String)
    (v : Json) (k' : String) (hne : ¬ (k = k')) :
    lookupKey (fillIfMissing d k v) k' = lookupKey d k' := by
  unfold fillIfMissing
  by_cases h : hasKey d k
  · rw [if_pos h]
  · rw [if_neg h, lookupKey_append]
    cases hc : lookupKey d k' with
    | some w => rfl
    | none => simp [lookupKey, hne]

theorem lookupKey_fillIfMissing_same (d : List (String × Json)) (k : String)
    (v : Json) :
    lookupKey (fillIfMissing d k v) k =
      match lookupKey d k with
      | some w => some w
      | none => some v := by
  unfold fillIfMissing
  by_cases h : hasKey d k
  · rw [if_pos h]
    obtain ⟨w, hw⟩ := Option.isSome_iff_exists.mp (by simpa [hasKey] using h)
    rw [hw]
  · rw [if_neg h, lookupKey_append]
    have hn : lookupKey d k = none := by
      cases hc : lookupKey d k with
      | none => rfl
      | some w => rw [hasKey, hc] at h; simp at h
    rw [hn]
    simp [lookupKey]

theorem NodupKeys_dictMerge :
    ∀ (b a : List (String × Json)), NodupKeys a → NodupKeys (dictMerge a b) := by
  intro b
  induction b with
  | nil => intro a ha; exact ha
  | cons p rest ih =>
      intro a ha
      rw [show dictMerge a (p :: rest) = dictMerge (setKey a p.1 p.2) rest by
        simp [dictMerge]]
      exact ih _ (NodupKeys_setKey p.1 p.2 a ha)

theorem NodupKeys_fillIfMissing (d : List (String × Json)) (k : String) (v : Json)
    (h : NodupKeys d) : NodupKeys (fillIfMissing d k v) := by
  unfold fillIfMissing
  by_cases hk : hasKey d k
  · rw [if_pos hk]; exact h
  · rw [if_neg hk]
    refine NodupKeys_append_single d k v h ?_
    rw [← lookupKey_isSome_iff_mem]
    have : lookupKey d k = none := by
      cases hc : lookupKey d k with
      | none => rfl
      | some w => rw [hasKey, hc] at hk; simp at hk
    simp [this]

theorem lookupKey_taxFill_other (t : Json) (d : List (String × Json)) (k' : String)
    (hne : ¬ ("tax_id" = k')) :
    lookupKey (taxFill t d) k' = lookupKey d k' := by
  unfold taxFill
  by_cases h : presentNonNull (lookupKey d "tax_id")
  · rw [if_pos h]
  · rw [if_neg h, lookupKey_setKey]
    rw [if_neg (fun hh => hne hh.symm)]

theorem lookupKey_taxFill_same (t : Json) (d : List (String × Json)) :
    lookupKey (taxFill t d) "tax_id" =
      if presentNonNull (lookupKey d "tax_id") then lookupKey d "tax_id"
      else some t := by
  unfold taxFill
  by_cases h : presentNonNull (lookupKey d "tax_id")
  · rw [if_pos h, if_pos h]
  · rw [if_neg h, if_neg h, lookupKey_setKey, if_pos rfl]

theorem NodupKeys_taxFill (t : Json) (d : List (String × Json)) (h : NodupKeys d) :
    NodupKeys (taxFill t d) := by
  unfold taxFill
  by_cases hc : presentNonNull (lookupKey d "tax_id")
  · rw [if_pos hc]; exact h
  · rw [if_neg hc]; exact NodupKeys_setKey _ _ d h

theorem NodupKeys_completeOnePosition (t : Json) (kvs : List (String × Json))
    (_hnd : NodupKeys kvs) : NodupKeys (completeOnePosition t kvs) := by
  unfold completeOnePosition
  exact NodupKeys_taxFill _ _ (NodupKeys_fillIfMissing _ _ _
    (NodupKeys_fillIfMissing _ _ _ (NodupKeys_fillIfMissing _ _ _
      (NodupKeys_dictMerge kvs DEFAULT_INVOICE_POSITION (by decide)))))

theorem completeOnePosition_lookup_type (t : Json) (kvs : List (String × Json))
    (hnd : NodupKeys kvs) :
    lookupKey (completeOnePosition t kvs) "type" =
      some (pyGetD kvs "type" (.str "KbPositionCustom")) := by
  unfold completeOnePosition
  rw [lookupKey_taxFill_other _ _ _ (by decide),
    lookupKey_fillIfMissing_other _ _ _ _ (by decide),
    lookupKey_fillIfMissing_other _ _ _ _ (by decide),
    lookupKey_fillIfMissing_other _ _ _ _ (by decide),
    lookupKey_dictMerge kvs _ hnd]
  cases hc : lookupKey kvs "type" with
  | some w => simp [pyGetD, hc]
  | none => simp [pyGetD, hc, DEFAULT_INVOICE_POSITION, lookupKey]

theorem completeOnePosition_lookup_text (t : Json) (kvs : List (String × Json))
    (hnd : NodupKeys kvs) :
    lookupKey (completeOnePosition t kvs) "text" =
      some (pyGetD kvs "text" (.str "Service")) := by
  unfold completeOnePosition
  rw [lookupKey_taxFill_other _ _ _ (by decide),
    lookupKey_fillIfMissing_other _ _ _ _ (by decide),
    lookupKey_fillIfMissing_other _ _ _ _ (by decide),
    lookupKey_fillIfMissing_same,
    lookupKey_dictMerge kvs _ hnd]
  cases hc : lookupKey kvs "text" with
  | some w => simp [pyGetD, hc]
  | none => simp [pyGetD, hc, DEFAULT_INVOICE_POSITION, lookupKey]

theorem completeOnePosition_lookup_amount (t : Json) (kvs : List (String × Json))
    (hnd : NodupKeys kvs) :
    lookupKey (completeOnePosition t kvs) "amount" =
      some (pyGetD kvs "amount" (.int 1)) := by
  unfold completeOnePosition
  rw [lookupKey_taxFill_other _ _ _ (by decide),
    lookupKey_fillIfMissing_other _ _ _ _ (by decide),
    lookupKey_fillIfMissing_same,
    lookupKey_fillIfMissing_other _ _ _ _ (by decide),
    lookupKey_dictMerge kvs _ hnd]
  cases hc : lookupKey kvs "amount" with
  | some w => simp [pyGetD, hc]
  | none => simp [pyGetD, hc, DEFAULT_INVOICE_POSITION, lookupKey]

theorem completeOnePosition_lookup_unit_price (t : Json) (kvs : List (String × Json))
    (hnd : NodupKeys kvs) :
    lookupKey (completeOnePosition t kvs) "unit_price" =
      some (pyGetD kvs "unit_price" (.float 0)) := by
  unfold completeOnePosition
  rw [lookupKey_taxFill_other _ _ _ (by decide),
    lookupKey_fillIfMissing_same,
    lookupKey_fillIfMissing_other _ _ _ _ (by decide),
    lookupKey_fillIfMissing_other _ _ _ _ (by decide),
    lookupKey_dictMerge kvs _ hnd]
  cases hc : lookupKey kvs "unit_price" with
  | some w => simp [pyGetD, hc]
  | none => simp [pyGetD, hc, DEFAULT_INVOICE_POSITION, lookupKey]

theorem completeOnePosition_lookup_tax (t : Json) (kvs : List (String × Json))
    (hnd : NodupKeys kvs) :
    lookupKey (completeOnePosition t kvs) "tax_id" =
      if presentNonNull (lookupKey kvs "tax_id") then lookupKey kvs "tax_id"
      else some t := by
  unfold completeOnePosition
  rw [lookupKey_taxFill_same,
    lookupKey_fillIfMissing_other _ _ _ _ (by decide),
    lookupKey_fillIfMissing_other _ _ _ _ (by decide),
    lookupKey_fillIfMissing_other _ _ _ _ (by decide),
    lookupKey_dictMerge kvs _ hnd]
  cases hc : lookupKey kvs "tax_id" with
  | none => simp [presentNonNull, DEFAULT_INVOICE_POSITION, lookupKey]
  | some w => cases w <;> simp [presentNonNull]

theorem completeOnePosition_lookup_other (t : Json) (kvs : List (String × Json))
    (hnd : NodupKeys kvs) (k : String)
    (h1 : ¬ (k = "type")) (h2 : ¬ (k = "amount")) (h3 : ¬ (k = "unit_price"))
    (h4 : ¬ (k = "tax_id")) (h5 : ¬ (k = "text")) :
    lookupKey (completeOnePosition t kvs) k = lookupKey kvs k := by
  unfold completeOnePosition
  rw [lookupKey_taxFill_other _ _ _ (fun hh => h4 hh.symm),
    lookupKey_fillIfMissing_other _ _ _ _ (fun hh => h3 hh.symm),
    lookupKey_fillIfMissing_other _ _ _ _ (fun hh => h2 hh.symm),
    lookupKey_fillIfMissing_other _ _ _ _ (fun hh => h5 hh.symm),
    lookupKey_dictMerge kvs _ hnd]
  cases hc : lookupKey kvs k with
  | some w => rfl
  | none =>
      have d1 : ¬ ("type" = k) := fun hh => h1 hh.symm
      have d2 : ¬ ("amount" = k) := fun hh => h2 hh.symm
      have d3 : ¬ ("unit_price" = k) := fun hh => h3 hh.symm
      have d4 : ¬ ("tax_id" = k) := fun hh => h4 hh.symm
      simp [DEFAULT_INVOICE_POSITION, lookupKey, d1, d2, d3, d4]

theorem completeOnePosition_idem (t : Json) (kvs : List (String × Json))
    (hnd : NodupKeys kvs) :
    ∀ k, lookupKey (completeOnePosition t (completeOnePosition t kvs)) k =
      lookupKey (completeOnePosition t kvs) k := by
  intro k
  have hq : NodupKeys (completeOnePosition t kvs) :=
    NodupKeys_completeOnePosition t kvs hnd
  by_cases h1 : k = "type"
  · subst h1
    rw [completeOnePosition_lookup_type t _ hq,
      completeOnePosition_lookup_type t kvs hnd, pyGetD,
      completeOnePosition_lookup_type t kvs hnd]
    rfl
  by_cases h2 : k = "amount"
  · subst h2
    rw [completeOnePosition_lookup_amount t _ hq,
      completeOnePosition_lookup_amount t kvs hnd, pyGetD,
      completeOnePosition_lookup_amount t kvs hnd]
    rfl
  by_cases h3 : k = "unit_price"
  · subst h3
    rw [completeOnePosition_lookup_unit_price t _ hq,
      completeOnePosition_lookup_unit_price t kvs hnd, pyGetD,
      completeOnePosition_lookup_unit_price t kvs hnd]
    rfl
  by_cases h5 : k = "text"
  · subst h5
    rw [completeOnePosition_lookup_text t _ hq,
      completeOnePosition_lookup_text t kvs hnd, pyGetD,
      completeOnePosition_lookup_text t kvs hnd]
    rfl
  by_cases h4 : k = "tax_id"
  · subst h4
    have hlq := completeOnePosition_lookup_tax t kvs hnd
    rw [completeOnePosition_lookup_tax t _ hq]
    by_cases hp : presentNonNull (lookupKey (completeOnePosition t kvs) "tax_id")
    · rw [if_pos hp]
    · rw [if_neg hp]
      rw [hlq] at hp ⊢
      by_cases hpk : presentNonNull (lookupKey kvs "tax_id")
      · rw [if_pos hpk] at hp
        exact absurd hpk hp
      · rw [if_neg hpk]
  · rw [completeOnePosition_lookup_other t _ hq k h1 h2 h3 h4 h5,
      completeOnePosition_lookup_other t kvs hnd k h1 h2 h3 h4 h5]

theorem completeEach_spec (t : Json) :
    ∀ (items : List Json), (∀ p ∈ items, ∃ kvs, p = Json.obj kvs) →
      completeEach t items = .ok (items.map (fun p =>
        match p with
        | Json.obj kvs => Json.obj (completeOnePosition t kvs)
        | _ => Json.null)) := by
  intro items
  induction items with
  | nil => intro _; rfl
  | cons p rest ih =>
      intro hobj
      obtain ⟨kvs, hp⟩ := hobj p (List.mem_cons_self _ _)
      subst hp
      rw [show completeEach t (Json.obj kvs :: rest) =
          (match completeEach t rest with
            | .ok out => .ok (Json.obj (completeOnePosition t kvs) :: out)
            | .error e => .error e) from rfl]
      rw [ih (fun p2 h2 => hobj p2 (List.mem_cons_of_mem _ h2))]
      rfl

theorem complete_invoice_positions_trace (net : Net) (v : Json) :
    (complete_invoice_positions net v).2 = [taxReq] := by
  unfold complete_invoice_positions
  cases hi : pyIterate v with
  | error e => rfl
  | ok items =>
      cases hc : completeEach (get_default_tax_id net) items with
      | ok out => simp [hc]
      | error e => simp [hc]

/-! ### Claim C7 -/

/-- C7: within one line-item completion call the default tax id is
resolved exactly once — the request trace is the single GET `/tax` — and
when no item carries a non-null `tax_id`, every completed item carries the
identical resolved id `get_default_tax_id net`. -/
theorem claim_C7_shared_tax :
    ∀ (net : Net) (v : Json) (items : List Json),
      pyIterate v = .ok items →
      (∀ p ∈ items, ∃ kvs, p = Json.obj kvs ∧ NodupKeys kvs ∧
        presentNonNull (lookupKey kvs "tax_id") = false) →
      (complete_invoice_positions net v).2 = [taxReq] ∧
      ∃ out, (complete_invoice_positions net v).1 = .ok (.arr out) ∧
        out.length = items.length ∧
        ∀ q ∈ out, ∃ kvs2, q = Json.obj kvs2 ∧
          lookupKey kvs2 "tax_id" = some (get_default_tax_id net) := by
  intro net v items hiter hitems
  refine ⟨complete_invoice_positions_trace net v, ?_⟩
  have hres : (complete_invoice_positions net v).1 =
      .ok (.arr (items.map (fun p =>
        match p with
        | Json.obj kvs => Json.obj (completeOnePosition (get_default_tax_id net) kvs)
        | _ => Json.null))) := by
    have hce := completeEach_spec (get_default_tax_id net) items
      (fun p hp => ⟨(hitems p hp).choose, (hitems p hp).choose_spec.1⟩)
    simp [complete_invoice_positions, hiter, hce]
  refine ⟨_, hres, by simp, ?_⟩
  intro q hq
  rw [List.mem_map] at hq
  obtain ⟨p, hp, hqe⟩ := hq
  obtain ⟨kvs, rfl, hndk, htax⟩ := hitems p hp
  refine ⟨completeOnePosition (get_default_tax_id net) kvs, hqe.symm, ?_⟩
  rw [completeOnePosition_lookup_tax _ kvs hndk, htax]
  simp

/-- C7 witness. -/
theorem claim_C7_witness :
    (complete_invoice_positions netTaxes
      (.arr [Json.obj [], Json.obj [("text", Json.str "A")]])).2 = [taxReq] ∧
    ∃ out, (complete_invoice_positions netTaxes
        (.arr [Json.obj [], Json.obj [("text", Json.str "A")]])).1 = .ok (.arr out) ∧
      out.length = 2 ∧
      ∀ q ∈ out, ∃ kvs2, q = Json.obj kvs2 ∧
        lookupKey kvs2 "tax_id" = some (get_default_tax_id netTaxes) := by
  obtain ⟨h1, out, h2, h3, h4⟩ := claim_C7_shared_tax netTaxes
    (.arr [Json.obj [], Json.obj [("text", Json.str "A")]])
    [Json.obj [], Json.obj [("text", Json.str "A")]] rfl (by
      intro p hp
      rcases List.mem_cons.mp hp with rfl | hp2
      · exact ⟨[], rfl, by decide, rfl⟩
      · rcases List.mem_cons.mp hp2 with rfl | hp3
        · exact ⟨[("text", Json.str "A")], rfl, by decide, rfl⟩
        · simp at hp3)
  exact ⟨h1, out, h2, h3.trans rfl, h4⟩

/-! ### Claim C9 -/

theorem canonList_map_eq (f : Json → Json) :
    ∀ (xs : List Json), (∀ x ∈ xs, canon (f x) = canon x) →
      canonList (xs.map f) = canonList xs := by
  intro xs
  induction xs with
  | nil => intro _; rfl
  | cons x rest ih =>
      intro h
      simp only [List.map_cons, canonList]
      rw [h x (List.mem_cons_self _ _), ih (fun y hy => h y (List.mem_cons_of_mem _ hy))]

/-- C9 (counterexample): completing a single position that explicitly sets
`type` to null produces an item whose `type` is still null — the
completion only fills ABSENT keys (and null `tax_id`), so "every item of a
completed collection has non-null type, text, amount, unit_price" fails on
explicit nulls. -/
theorem claim_C9_counterexample :
    (complete_invoice_positions (fun _ => .error "offline")
        (.arr [Json.obj [("type", Json.null)]])).1 =
      .ok (.arr [Json.obj [("type", Json.null), ("amount", Json.int 1),
        ("unit_price", Json.float 0), ("tax_id", Json.int 1),
        ("text", Json.str "Service")]]) ∧
    lookupKey [("type", Json.null), ("amount", Json.int 1),
        ("unit_price", Json.float 0), ("tax_id", Json.int 1),
        ("text", Json.str "Service")] "type" = some Json.null :=
  ⟨rfl, rfl⟩

/-- C9 (amended): line-item completion is idempotent up to Python equality
— re-completing a completed collection (same network) returns an equal
collection — and each completed item carries all five fields with these
exact values: `type`, `text`, `amount`, `unit_price` equal the caller's
value when the key is present (even an explicit null) and the non-null
default otherwise, and `tax_id` equals the caller's value when present and
non-null and the resolved default otherwise. -/
theorem claim_C9_amended :
    (∀ (net : Net) (v : Json) (items : List Json),
      pyIterate v = .ok items →
      (∀ p ∈ items, ∃ kvs, p = Json.obj kvs ∧ NodupKeys kvs) →
      ∃ out, (complete_invoice_positions net v).1 = .ok (.arr out) ∧
        ∃ out2, (complete_invoice_positions net (.arr out)).1 = .ok (.arr out2) ∧
          pyEq (.arr out2) (.arr out)) ∧
    (∀ (t : Json) (kvs : List (String × Json)), NodupKeys kvs →
      lookupKey (completeOnePosition t kvs) "type" =
        some (pyGetD kvs "type" (.str "KbPositionCustom")) ∧
      lookupKey (completeOnePosition t kvs) "text" =
        some (pyGetD kvs "text" (.str "Service")) ∧
      lookupKey (completeOnePosition t kvs) "amount" =
        some (pyGetD kvs "amount" (.int 1)) ∧
      lookupKey (completeOnePosition t kvs) "unit_price" =
        some (pyGetD kvs "unit_price" (.float 0)) ∧
      lookupKey (completeOnePosition t kvs) "tax_id" =
        (if presentNonNull (lookupKey kvs "tax_id") then lookupKey kvs "tax_id"
         else some t)) := by
  constructor
  · intro net v items hiter hitems
    have hce := completeEach_spec (get_default_tax_id net) items
      (fun p hp => ⟨(hitems p hp).choose, (hitems p hp).choose_spec.1⟩)
    refine ⟨items.map (fun p =>
        match p with
        | Json.obj kvs => Json.obj (completeOnePosition (get_default_tax_id net) kvs)
        | _ => Json.null),
      by simp [complete_invoice_positions, hiter, hce], ?_⟩
    have hout : ∀ q ∈ items.map (fun p =>
        match p with
        | Json.obj kvs => Json.obj (completeOnePosition (get_default_tax_id net) kvs)
        | _ => Json.null),
        ∃ kvs, q = Json.obj kvs ∧ NodupKeys kvs ∧
          (∀ k, lookupKey (completeOnePosition (get_default_tax_id net) kvs) k =
            lookupKey kvs k) := by
      intro q hq
      rw [List.mem_map] at hq
      obtain ⟨p, hp, hqe⟩ := hq
      obtain ⟨kvs, rfl, hndk⟩ := hitems p hp
      exact ⟨completeOnePosition (get_default_tax_id net) kvs, hqe.symm,
        NodupKeys_completeOnePosition _ kvs hndk,
        completeOnePosition_idem (get_default_tax_id net) kvs hndk⟩
    have hce2 := completeEach_spec (get_default_tax_id net)
      (items.map (fun p =>
        match p with
        | Json.obj kvs => Json.obj (completeOnePosition (get_default_tax_id net) kvs)
        | _ => Json.null))
      (fun q hq => ⟨(hout q hq).choose, (hout q hq).choose_spec.1⟩)
    refine ⟨(items.map (fun p =>
        match p with
        | Json.obj kvs => Json.obj (completeOnePosition (get_default_tax_id net) kvs)
        | _ => Json.null)).map (fun p =>
        match p with
        | Json.obj kvs => Json.obj (completeOnePosition (get_default_tax_id net) kvs)
        | _ => Json.null),
      by
        simp only [List.map_map] at hce2
        simp [complete_invoice_positions, pyIterate, hce2, List.map_map], ?_⟩
    show pyEq (Json.arr (List.map _ _)) (Json.arr _)
    unfold pyEq
    rw [show ∀ xs, canon (Json.arr xs) = Json.arr (canonList xs) from fun xs => rfl,
      show ∀ xs, canon (Json.arr xs) = Json.arr (canonList xs) from fun xs => rfl]
    rw [canonList_map_eq]
    intro x hx
    obtain ⟨kvs, rfl, hndk, hpt⟩ := hout x hx
    exact canon_obj_ext _ _ hpt
  · intro t kvs hnd
    exact ⟨completeOnePosition_lookup_type t kvs hnd,
      completeOnePosition_lookup_text t kvs hnd,
      completeOnePosition_lookup_amount t kvs hnd,
      completeOnePosition_lookup_unit_price t kvs hnd,
      completeOnePosition_lookup_tax t kvs hnd⟩

/-- C9 witness. -/
theorem claim_C9_witness :
    (∃ out, (complete_invoice_positions (fun _ => .error "offline")
        (.arr [Json.obj [("unit_price", Json.int 5)]])).1 = .ok (.arr out) ∧
      ∃ out2, (complete_invoice_positions (fun _ => .error "offline")
          (.arr out)).1 = .ok (.arr out2) ∧
        pyEq (.arr out2) (.arr out)) ∧
    lookupKey (completeOnePosition (Json.int 1) [("unit_price", Json.int 5)]) "text" =
      some (Json.str "Service") := by
  constructor
  · exact claim_C9_amended.1 _ _ [Json.obj [("unit_price", Json.int 5)]] rfl (by
      intro p hp
      rcases List.mem_cons.mp hp with rfl | h2
      · exact ⟨_, rfl, by decide⟩
      · simp at h2)
  · have h := (claim_C9_amended.2 (Json.int 1) [("unit_price", Json.int 5)]
      (by decide)).2.1
    rw [h]
    rfl

/-! ### Claim C8 machinery -/

theorem lookupKey_applyUpd (n : List (String × Json)) (kk : String)
    (upd : Option Json) (k : String) :
    lookupKey (applyUpd n kk upd) k =
      match upd with
      | none => lookupKey n k
      | some w => if k = kk then some w else lookupKey n k := by
  cases upd with
  | none => rfl
  | some w => simp [applyUpd, lookupKey_setKey]

theorem presentNonNull_of_ne_null (v : Json) (h : v ≠ .null) :
    presentNonNull (some v) = true := by
  cases v with
  | null => exact absurd rfl h
  | bool b => rfl
  | int n => rfl
  | float q => rfl
  | str s => rfl
  | arr xs => rfl
  | obj kvs => rfl

/-- One loop step behaves identically on two working mappings that agree
at the spec's field: same error, or the same optional single-key write and
the same appended missing messages. -/
theorem processFieldSpec_cong (net : Net) (fn : String) (ctx : Option Int)
    (g : FieldSpec) (n1 n2 : List (String × Json)) (m : List String)
    (hg : lookupKey n1 g.name = lookupKey n2 g.name) :
    (∃ e, processFieldSpec net fn ctx (.ok (n1, m)) g = .error e ∧
          processFieldSpec net fn ctx (.ok (n2, m)) g = .error e) ∨
    (∃ upd extraMsgs,
      processFieldSpec net fn ctx (.ok (n1, m)) g =
        .ok (applyUpd n1 g.name upd, m ++ extraMsgs) ∧
      processFieldSpec net fn ctx (.ok (n2, m)) g =
        .ok (applyUpd n2 g.name upd, m ++ extraMsgs)) := by
  simp only [processFieldSpec]
  rw [← hg]
  by_cases hpres : presentNonNull (lookupKey n1 g.name)
  · rw [if_pos hpres, if_pos hpres]
    by_cases hp1 : g.name = "positions"
    · by_cases hp2 : fn = "create_invoice"
      · have hgd : pyGetD n2 g.name .null = pyGetD n1 g.name .null := by
          simp [pyGetD, hg]
        rw [if_pos (by simp [hp1, hp2]), if_pos (by simp [hp1, hp2]), hgd]
        cases hres : (complete_invoice_positions net (pyGetD n1 g.name .null)).1 with
        | ok newv =>
            right
            exact ⟨some newv, [], by simp [hres, applyUpd], by simp [hres, applyUpd]⟩
        | error e =>
            exact Or.inl ⟨e, by simp [hres], by simp [hres]⟩
      · right
        refine ⟨none, [], ?_, ?_⟩ <;> simp [applyUpd, hp2]
    · right
      refine ⟨none, [], ?_, ?_⟩ <;> simp [applyUpd, hp1]
  · rw [if_neg hpres, if_neg hpres]
    cases ht : g.treatment with
    | requiredUserInput =>
        right
        exact ⟨none, [g.name ++ ": " ++ g.description], rfl, rfl⟩
    | autoFillDefault d =>
        right
        refine ⟨some d, [], ?_, ?_⟩ <;> simp [applyUpd]
    | autoFillLookup mth =>
        cases hlv : lookup_field_value net mth ctx g.name with
        | null =>
            right
            refine ⟨none, [g.name ++ ": " ++ g.description ++ " (lookup failed)"], ?_, ?_⟩ <;>
              simp [hlv, applyUpd]
        | bool b =>
            right
            refine ⟨some (Json.bool b), [], ?_, ?_⟩ <;> simp [hlv, applyUpd]
        | int n =>
            right
            refine ⟨some (Json.int n), [], ?_, ?_⟩ <;> simp [hlv, applyUpd]
        | float q =>
            right
            refine ⟨some (Json.float q), [], ?_, ?_⟩ <;> simp [hlv, applyUpd]
        | str s =>
            right
            refine ⟨some (Json.str s), [], ?_, ?_⟩ <;> simp [hlv, applyUpd]
        | arr xs =>
            right
            refine ⟨some (Json.arr xs), [], ?_, ?_⟩ <;> simp [hlv, applyUpd]
        | obj kvs =>
            right
            refine ⟨some (Json.obj kvs), [], ?_, ?_⟩ <;> simp [hlv, applyUpd]
    | apiHandled =>
        right
        refine ⟨none, [], ?_, ?_⟩ <;> simp [applyUpd]

theorem fold_relB (net : Net) (fn : String) (ctx : Option Int) :
    ∀ (L : List FieldSpec) (s1 s2 : Except String (List (String × Json) × List String)),
      StRelB s1 s2 →
      StRelB (L.foldl (processFieldSpec net fn ctx) s1)
             (L.foldl (processFieldSpec net fn ctx) s2) := by
  intro L
  induction L with
  | nil => intro s1 s2 h; exact h
  | cons g rest ih =>
      intro s1 s2 h
      rw [List.foldl_cons, List.foldl_cons]
      apply ih
      rcases h with ⟨e, rfl, rfl⟩ | ⟨n1, n2, m, rfl, rfl, hp⟩
      · exact Or.inl ⟨e, rfl, rfl⟩
      · rcases processFieldSpec_cong net fn ctx g n1 n2 m (hp g.name) with
          ⟨e, he1, he2⟩ | ⟨upd, extraMsgs, ho1, ho2⟩
        · exact Or.inl ⟨e, he1, he2⟩
        · refine Or.inr ⟨_, _, _, ho1, ho2, ?_⟩
          intro k
          rw [lookupKey_applyUpd, lookupKey_applyUpd]
          cases upd with
          | none => exact hp k
          | some w =>
              by_cases hk : k = g.name
              · simp [hk]
              · simp [hk, hp k]

theorem fold_relA (net : Net) (fn : String) (ctx : Option Int) (f : String) (d : Json) :
    ∀ (L : List FieldSpec), (∀ g ∈ L, g.name ≠ f) →
      ∀ s1 s2, (StRelA f d s1 s2 ∨ StErr s1 s2) →
      (StRelA f d (L.foldl (processFieldSpec net fn ctx) s1)
          (L.foldl (processFieldSpec net fn ctx) s2) ∨
        StErr (L.foldl (processFieldSpec net fn ctx) s1)
          (L.foldl (processFieldSpec net fn ctx) s2)) := by
  intro L
  induction L with
  | nil => intro _ s1 s2 h; exact h
  | cons g rest ih =>
      intro hnames s1 s2 h
      rw [List.foldl_cons, List.foldl_cons]
      apply ih (fun g2 h2 => hnames g2 (List.mem_cons_of_mem _ h2))
      have hgf : g.name ≠ f := hnames g (List.mem_cons_self _ _)
      rcases h with ⟨n1, n2, m, rfl, rfl, hp, hf1, hf2⟩ | ⟨e, rfl, rfl⟩
      · rcases processFieldSpec_cong net fn ctx g n1 n2 m (hp g.name hgf) with
          ⟨e, he1, he2⟩ | ⟨upd, extraMsgs, ho1, ho2⟩
        · exact Or.inr ⟨e, he1, he2⟩
        · refine Or.inl ⟨_, _, _, ho1, ho2, ?_, ?_, ?_⟩
          · intro k hk
            rw [lookupKey_applyUpd, lookupKey_applyUpd]
            cases upd with
            | none => exact hp k hk
            | some w =>
                by_cases hkg : k = g.name
                · simp [hkg]
                · simp [hkg, hp k hk]
          · rw [lookupKey_applyUpd]
            cases upd with
            | none => exact hf1
            | some w =>
                have hne : ¬ (f = g.name) := fun hh => hgf hh.symm
                show (if f = g.name then some w else lookupKey n1 f) = some d
                rw [if_neg hne, hf1]
          · rw [lookupKey_applyUpd]
            cases upd with
            | none => exact hf2
            | some w =>
                have hne : ¬ (f = g.name) := fun hh => hgf hh.symm
                show (if f = g.name then some w else lookupKey n2 f) = none
                rw [if_neg hne, hf2]
      · exact Or.inr ⟨e, rfl, rfl⟩

theorem step_f_spec (net : Net) (fn : String) (ctx : Option Int) (f : String)
    (d : Json) (desc : String) (hd : d ≠ .null) (hf : f ≠ "positions")
    (s1 s2 : Except String (List (String × Json) × List String))
    (h : StRelA f d s1 s2 ∨ StErr s1 s2) :
    StRelB (processFieldSpec net fn ctx s1 (FieldSpec.mk f (.autoFillDefault d) desc))
           (processFieldSpec net fn ctx s2 (FieldSpec.mk f (.autoFillDefault d) desc)) := by
  rcases h with ⟨n1, n2, m, rfl, rfl, hp, hf1, hf2⟩ | ⟨e, rfl, rfl⟩
  · have hs1 : processFieldSpec net fn ctx (.ok (n1, m))
        (FieldSpec.mk f (.autoFillDefault d) desc) = .ok (n1, m) := by
      simp only [processFieldSpec]
      rw [hf1, if_pos (presentNonNull_of_ne_null d hd)]
      rw [if_neg (by simp [hf])]
    have hs2 : processFieldSpec net fn ctx (.ok (n2, m))
        (FieldSpec.mk f (.autoFillDefault d) desc) = .ok (setKey n2 f d, m) := by
      simp only [processFieldSpec]
      rw [hf2]
      rfl
    refine Or.inr ⟨n1, setKey n2 f d, m, hs1, hs2, ?_⟩
    intro k
    rw [lookupKey_setKey]
    by_cases hk : k = f
    · subst hk; rw [if_pos rfl, hf1]
    · rw [if_neg hk]; exact hp k hk
  · exact Or.inl ⟨e, rfl, rfl⟩

/-- The heart of C8: folding a policy list that mentions the
default-filled field `f` once (and not earlier) over a working mapping
with `f` explicitly set to its default and over the same mapping with `f`
removed ends in the same error or in pointwise-equal mappings with equal
missing lists. -/
theorem fold_default_field (net : Net) (fn : String) (ctx : Option Int)
    (L1 L2 : List FieldSpec) (f desc : String) (d : Json)
    (W : List (String × Json))
    (h1 : ∀ g ∈ L1, g.name ≠ f) (hd : d ≠ .null) (hf : f ≠ "positions") :
    StRelB
      ((L1 ++ FieldSpec.mk f (.autoFillDefault d) desc :: L2).foldl
        (processFieldSpec net fn ctx) (.ok (setKey W f d, [])))
      ((L1 ++ FieldSpec.mk f (.autoFillDefault d) desc :: L2).foldl
        (processFieldSpec net fn ctx) (.ok (removeKey W f, []))) := by
  rw [List.foldl_append, List.foldl_append, List.foldl_cons, List.foldl_cons]
  apply fold_relB
  apply step_f_spec net fn ctx f d desc hd hf
  apply fold_relA net fn ctx f d L1 h1
  refine Or.inl ⟨setKey W f d, removeKey W f, [], rfl, rfl, ?_, ?_, ?_⟩
  · intro k hk
    rw [lookupKey_setKey, lookupKey_removeKey, if_neg hk, if_neg hk]
  · rw [lookupKey_setKey, if_pos rfl]
  · rw [lookupKey_removeKey, if_pos rfl]

theorem validate_structure_some (net : Net) (fn : String) (ctx : Option Int)
    (k : String) (specs : List FieldSpec) (w : List (String × Json))
    (hspec : (FIELD_SPECS.find? (fun p => p.1 = fn)).map Prod.snd = some specs)
    (hkey : get_data_key fn = some k) :
    validate_and_complete_fields net fn [(k, Json.obj w)] ctx =
      match specs.foldl (processFieldSpec net fn ctx) (.ok (w, [])) with
      | .ok (nested, missing) => .ok ([(k, Json.obj nested)], missing)
      | .error e => .error e := by
  simp only [validate_and_complete_fields, hspec, hkey]
  rw [show lookupKey [(k, Json.obj w)] k = some (Json.obj w) from by simp [lookupKey]]
  cases hres : specs.foldl (processFieldSpec net fn ctx) (.ok (w, [])) with
  | ok p =>
      obtain ⟨nested, missing⟩ := p
      simp [hres, setKey]
  | error e => simp [hres]

theorem fold_error (net : Net) (fn : String) (ctx : Option Int) (e : String) :
    ∀ (L : List FieldSpec),
      L.foldl (processFieldSpec net fn ctx) (.error e) = .error e := by
  intro L
  induction L with
  | nil => rfl
  | cons g rest ih => rw [List.foldl_cons]; exact ih

theorem step_keeps_f (net : Net) (fn : String) (ctx : Option Int) (g : FieldSpec)
    (f : String) (v : Json) (hf : f ≠ "positions") (hnn : v ≠ .null) :
    ∀ (n : List (String × Json)) (m : List String), lookupKey n f = some v →
      (∃ e, processFieldSpec net fn ctx (.ok (n, m)) g = .error e) ∨
      (∃ n' m', processFieldSpec net fn ctx (.ok (n, m)) g = .ok (n', m') ∧
        lookupKey n' f = some v) := by
  intro n m hv
  simp only [processFieldSpec]
  by_cases hp : presentNonNull (lookupKey n g.name)
  · rw [if_pos hp]
    by_cases hc : (decide (g.name = "positions") && decide (fn = "create_invoice")) = true
    · rw [if_pos hc]
      cases hres : (complete_invoice_positions net (pyGetD n g.name .null)).1 with
      | error e => exact Or.inl ⟨e, rfl⟩
      | ok newv =>
          right
          refine ⟨_, _, rfl, ?_⟩
          rw [lookupKey_setKey]
          have hne : ¬ (f = g.name) := by
            intro hh
            have hpos : g.name = "positions" :=
              of_decide_eq_true (Bool.and_eq_true_iff.mp hc).1
            exact hf (hh.trans hpos)
          rw [if_neg hne, hv]
    · rw [if_neg hc]
      exact Or.inr ⟨n, m, rfl, hv⟩
  · rw [if_neg hp]
    have hgf : ¬ (f = g.name) := by
      intro hh
      rw [← hh, hv] at hp
      exact hp (presentNonNull_of_ne_null v hnn)
    cases ht : g.treatment with
    | requiredUserInput => exact Or.inr ⟨n, _, rfl, hv⟩
    | autoFillDefault d =>
        right
        refine ⟨_, _, rfl, ?_⟩
        rw [lookupKey_setKey, if_neg hgf, hv]
    | autoFillLookup mth =>
        cases hlv : lookup_field_value net mth ctx g.name with
        | null =>
            exact Or.inr ⟨n, m ++ [g.name ++ ": " ++ g.description ++ " (lookup failed)"],
              by simp [hlv], hv⟩
        | bool b =>
            right
            refine ⟨setKey n g.name (.bool b), m, by simp [hlv], ?_⟩
            rw [lookupKey_setKey, if_neg hgf, hv]
        | int n2 =>
            right
            refine ⟨setKey n g.name (.int n2), m, by simp [hlv], ?_⟩
            rw [lookupKey_setKey, if_neg hgf, hv]
        | float q =>
            right
            refine ⟨setKey n g.name (.float q), m, by simp [hlv], ?_⟩
            rw [lookupKey_setKey, if_neg hgf, hv]
        | str s =>
            right
            refine ⟨setKey n g.name (.str s), m, by simp [hlv], ?_⟩
            rw [lookupKey_setKey, if_neg hgf, hv]
        | arr xs =>
            right
            refine ⟨setKey n g.name (.arr xs), m, by simp [hlv], ?_⟩
            rw [lookupKey_setKey, if_neg hgf, hv]
        | obj kvs =>
            right
            refine ⟨setKey n g.name (.obj kvs), m, by simp [hlv], ?_⟩
            rw [lookupKey_setKey, if_neg hgf, hv]
    | apiHandled => exact Or.inr ⟨n, m, rfl, hv⟩

theorem fold_keeps_f (net : Net) (fn : String) (ctx : Option Int)
    (f : String) (v : Json) (hf : f ≠ "positions") (hnn : v ≠ .null) :
    ∀ (L : List FieldSpec) (n : List (String × Json)) (m : List String),
      lookupKey n f = some v →
      (∃ e, L.foldl (processFieldSpec net fn ctx) (.ok (n, m)) = .error e) ∨
      (∃ n' m', L.foldl (processFieldSpec net fn ctx) (.ok (n, m)) = .ok (n', m') ∧
        lookupKey n' f = some v) := by
  intro L
  induction L with
  | nil => intro n m hv; exact Or.inr ⟨n, m, rfl, hv⟩
  | cons g rest ih =>
      intro n m hv
      rw [List.foldl_cons]
      rcases step_keeps_f net fn ctx g f v hf hnn n m hv with ⟨e, he⟩ | ⟨n', m', ho, hv'⟩
      · rw [he, fold_error]
        exact Or.inl ⟨e, rfl⟩
      · rw [ho]
        exact ih n' m' hv'

theorem validate_keeps_f (net : Net) (fn : String) (ctx : Option Int)
    (f : String) (v : Json) (W c : List (String × Json)) (m : List String)
    (hf : f ≠ "positions") (hnn : v ≠ .null)
    (hrun : validate_and_complete_fields net fn (topWrap fn (setKey W f v)) ctx =
      .ok (c, m)) :
    lookupKey (workingOf fn c) f = some v := by
  have hvW : lookupKey (setKey W f v) f = some v := by
    rw [lookupKey_setKey, if_pos rfl]
  cases hspec : (FIELD_SPECS.find? (fun p => p.1 = fn)).map Prod.snd with
  | none =>
      rw [show validate_and_complete_fields net fn (topWrap fn (setKey W f v)) ctx =
          .ok (topWrap fn (setKey W f v), []) from by
        simp [validate_and_complete_fields, hspec]] at hrun
      obtain ⟨hc, _⟩ : topWrap fn (setKey W f v) = c ∧ ([] : List String) = m := by
        have h1 := congrArg (fun x => match x with
          | Except.ok (p : List (String × Json) × List String) => p.1
          | Except.error _ => []) hrun
        have h2 := congrArg (fun x => match x with
          | Except.ok (p : List (String × Json) × List String) => p.2
          | Except.error _ => []) hrun
        exact ⟨h1, h2⟩
      subst hc
      unfold workingOf topWrap
      cases hkey : get_data_key fn with
      | some k => simp [lookupKey, hvW]
      | none => exact hvW
  | some specs =>
      cases hkey : get_data_key fn with
      | some k =>
          rw [show topWrap fn (setKey W f v) = [(k, Json.obj (setKey W f v))] from by
              simp [topWrap, hkey],
            validate_structure_some net fn ctx k specs _ hspec hkey] at hrun
          rcases fold_keeps_f net fn ctx f v hf hnn specs (setKey W f v) [] hvW with
            ⟨e, he⟩ | ⟨n', m', ho, hv'⟩
          · rw [he] at hrun
            cases hrun
          · rw [ho] at hrun
            have hc : [(k, Json.obj n')] = c := by
              have h1 := congrArg (fun x => match x with
                | Except.ok (p : List (String × Json) × List String) => p.1
                | Except.error _ => []) hrun
              exact h1
            subst hc
            unfold workingOf
            rw [hkey]
            simp [lookupKey, hv']
      | none =>
          rw [show topWrap fn (setKey W f v) = setKey W f v from by
              simp [topWrap, hkey]] at hrun
          rw [show validate_and_complete_fields net fn (setKey W f v) ctx =
              specs.foldl (processFieldSpec net fn ctx) (.ok (setKey W f v, [])) from by
            simp [validate_and_complete_fields, hspec, hkey]] at hrun
          rcases fold_keeps_f net fn ctx f v hf hnn specs (setKey W f v) [] hvW with
            ⟨e, he⟩ | ⟨n', m', ho, hv'⟩
          · rw [he] at hrun
            cases hrun
          · rw [ho] at hrun
            have hc : n' = c := by
              have h1 := congrArg (fun x => match x with
                | Except.ok (p : List (String × Json) × List String) => p.1
                | Except.error _ => []) hrun
              exact h1
            subst hc
            unfold workingOf
            rw [hkey]
            exact hv'

theorem default_field_op (net : Net) (ctx : Option Int) (fn k : String)
    (L1 L2 : List FieldSpec) (f desc : String) (d : Json)
    (W : List (String × Json))
    (hspec : (FIELD_SPECS.find? (fun p => p.1 = fn)).map Prod.snd =
      some (L1 ++ FieldSpec.mk f (.autoFillDefault d) desc :: L2))
    (hkey : get_data_key fn = some k)
    (h1 : ∀ g ∈ L1, g.name ≠ f) (hd : d ≠ .null) (hf : f ≠ "positions") :
    (∃ e, validate_and_complete_fields net fn (topWrap fn (setKey W f d)) ctx = .error e ∧
      validate_and_complete_fields net fn (topWrap fn (removeKey W f)) ctx = .error e) ∨
    (∃ c1 c2 m,
      validate_and_complete_fields net fn (topWrap fn (setKey W f d)) ctx = .ok (c1, m) ∧
      validate_and_complete_fields net fn (topWrap fn (removeKey W f)) ctx = .ok (c2, m) ∧
      pyEq (.obj c1) (.obj c2)) := by
  have htop1 : topWrap fn (setKey W f d) = [(k, Json.obj (setKey W f d))] := by
    simp [topWrap, hkey]
  have htop2 : topWrap fn (removeKey W f) = [(k, Json.obj (removeKey W f))] := by
    simp [topWrap, hkey]
  rw [htop1, htop2, validate_structure_some net fn ctx k _ _ hspec hkey,
    validate_structure_some net fn ctx k _ _ hspec hkey]
  rcases fold_default_field net fn ctx L1 L2 f desc d W h1 hd hf with
    ⟨e, he1, he2⟩ | ⟨n1, n2, m, ho1, ho2, hp⟩
  · left
    exact ⟨e, by rw [he1], by rw [he2]⟩
  · right
    refine ⟨[(k, Json.obj n1)], [(k, Json.obj n2)], m, by rw [ho1], by rw [ho2], ?_⟩
    apply canon_obj_ext_map
    intro k'
    by_cases hk : k' = k
    · subst hk
      rw [show lookupKey [(k', Json.obj n1)] k' = some (Json.obj n1) from by simp [lookupKey],
        show lookupKey [(k', Json.obj n2)] k' = some (Json.obj n2) from by simp [lookupKey]]
      show some (canon (Json.obj n1)) = some (canon (Json.obj n2))
      rw [canon_obj_ext n1 n2 hp]
    · have hne : ¬ (k = k') := fun hh => hk hh.symm
      rw [show lookupKey [(k, Json.obj n1)] k' = none from by simp [lookupKey, hne],
        show lookupKey [(k, Json.obj n2)] k' = none from by simp [lookupKey, hne]]

/-- C8 (counterexample): `create_contact` default-fills `user_id` with `1`.
A payload explicitly supplying `user_id: null` — a value different from the
default — is overwritten by the default, because the completion loop only
skips fields whose present value `is not None`.  So the claim that a
payload supplying a different value for a default-filled field is never
overwritten by the default is false. -/
theorem claim_C8_counterexample :
    validate_and_complete_fields netEmptyContact "create_contact"
      [("contact_data", Json.obj [("name_1", Json.str "x"), ("user_id", Json.null)])]
      none =
      .ok ([("contact_data", Json.obj
        [("name_1", Json.str "x"), ("user_id", Json.int 1),
         ("contact_type_id", Json.int 2), ("owner_id", Json.int 1)])], []) ∧
    Json.null ≠ Json.int 1 :=
  ⟨rfl, fun h => Json.noConfusion h⟩

/-- C8 (amended): for every operation in the field policy with a
default-filled field, (1) a payload omitting that field and a payload
explicitly setting it to the default value complete to payloads that are
equal as Python dicts (same missing-field report, or the same error), and
(2) a payload supplying a NON-NULL value for that field is never
overwritten: the completed payload still carries that value. -/
theorem claim_C8_amended (net : Net) (ctx : Option Int)
    (fn f desc : String) (d : Json) (specs : List FieldSpec)
    (W : List (String × Json))
    (hmem : (fn, specs) ∈ FIELD_SPECS)
    (hfs : FieldSpec.mk f (.autoFillDefault d) desc ∈ specs) :
    ((∃ e,
        validate_and_complete_fields net fn (topWrap fn (setKey W f d)) ctx =
          .error e ∧
        validate_and_complete_fields net fn (topWrap fn (removeKey W f)) ctx =
          .error e) ∨
      (∃ c1 c2 m,
        validate_and_complete_fields net fn (topWrap fn (setKey W f d)) ctx =
          .ok (c1, m) ∧
        validate_and_complete_fields net fn (topWrap fn (removeKey W f)) ctx =
          .ok (c2, m) ∧
        pyEq (.obj c1) (.obj c2))) ∧
    (∀ v c m, v ≠ Json.null →
      validate_and_complete_fields net fn (topWrap fn (setKey W f v)) ctx =
        .ok (c, m) →
      lookupKey (workingOf fn c) f = some v) := by
  have key : ∃ k L1 L2, get_data_key fn = some k ∧
      (FIELD_SPECS.find? (fun p => p.1 = fn)).map Prod.snd =
        some (L1 ++ FieldSpec.mk f (.autoFillDefault d) desc :: L2) ∧
      (∀ g ∈ L1, g.name ≠ f) ∧ d ≠ Json.null ∧ f ≠ "positions" := by
    simp only [FIELD_SPECS, List.mem_cons, List.not_mem_nil, or_false,
      Prod.mk.injEq] at hmem
    obtain hop | hop | hop | hop | hop | hop | hop | hop | hop := hmem <;>
      obtain ⟨rfl, rfl⟩ := hop
    · simp [FieldSpec.mk.injEq] at hfs
      obtain hf3 | hf3 | hf3 := hfs <;> obtain ⟨rfl, rfl, rfl⟩ := hf3
      · exact ⟨"contact_data",
          [FieldSpec.mk "name_1" .requiredUserInput
            "Contact name (company name or first name)"],
          [FieldSpec.mk "user_id" (.autoFillDefault (.int 1)) "User ID (typically 1)",
           FieldSpec.mk "owner_id" (.autoFillDefault (.int 1)) "Owner ID (typically 1)"],
          rfl, rfl, by decide, fun h => Json.noConfusion h, by decide⟩
      · exact ⟨"contact_data",
          [FieldSpec.mk "name_1" .requiredUserInput
            "Contact name (company name or first name)",
           FieldSpec.mk "contact_type_id" (.autoFillDefault (.int 2))
            "Contact type (1=company, 2=person)"],
          [FieldSpec.mk "owner_id" (.autoFillDefault (.int 1)) "Owner ID (typically 1)"],
          rfl, rfl, by decide, fun h => Json.noConfusion h, by decide⟩
      · exact ⟨"contact_data",
          [FieldSpec.mk "name_1" .requiredUserInput
            "Contact name (company name or first name)",
           FieldSpec.mk "contact_type_id" (.autoFillDefault (.int 2))
            "Contact type (1=company, 2=person)",
           FieldSpec.mk "user_id" (.autoFillDefault (.int 1)) "User ID (typically 1)"],
          [], rfl, rfl, by decide, fun h => Json.noConfusion h, by decide⟩
    · simp [FieldSpec.mk.injEq] at hfs
    · simp [FieldSpec.mk.injEq] at hfs
      rcases hfs with ⟨rfl, rfl, rfl⟩
      exact ⟨"invoice_data",
        [FieldSpec.mk "contact_id" .requiredUserInput "Contact ID for the invoice"],
        [FieldSpec.mk "positions" .requiredUserInput "Invoice line items array"],
        rfl, rfl, by decide, fun h => Json.noConfusion h, by decide⟩
    · simp [FieldSpec.mk.injEq] at hfs
      rcases hfs with ⟨rfl, rfl, rfl⟩
      exact ⟨"quote_data",
        [FieldSpec.mk "contact_id" .requiredUserInput "Contact ID for the quote"],
        [], rfl, rfl, by decide, fun h => Json.noConfusion h, by decide⟩
    · simp [FieldSpec.mk.injEq] at hfs
      obtain hp3 | hp3 | hp3 := hfs <;> obtain ⟨rfl, rfl, rfl⟩ := hp3
      · exact ⟨"project_data",
          [FieldSpec.mk "name" .requiredUserInput "Project name",
           FieldSpec.mk "contact_id" .requiredUserInput "Contact ID for the project"],
          [FieldSpec.mk "pr_state_id" (.autoFillDefault (.int 1))
            "Project state ID (1=active)",
           FieldSpec.mk "pr_project_type_id" (.autoFillDefault (.int 1))
            "Project type ID (1=default)"],
          rfl, rfl, by decide, fun h => Json.noConfusion h, by decide⟩
      · exact ⟨"project_data",
          [FieldSpec.mk "name" .requiredUserInput "Project name",
           FieldSpec.mk "contact_id" .requiredUserInput "Contact ID for the project",
           FieldSpec.mk "user_id" (.autoFillDefault (.int 1)) "User ID (typically 1)"],
          [FieldSpec.mk "pr_project_type_id" (.autoFillDefault (.int 1))
            "Project type ID (1=default)"],
          rfl, rfl, by decide, fun h => Json.noConfusion h, by decide⟩
      · exact ⟨"project_data",
          [FieldSpec.mk "name" .requiredUserInput "Project name",
           FieldSpec.mk "contact_id" .requiredUserInput "Contact ID for the project",
           FieldSpec.mk "user_id" (.autoFillDefault (.int 1)) "User ID (typically 1)",
           FieldSpec.mk "pr_state_id" (.autoFillDefault (.int 1))
            "Project state ID (1=active)"],
          [], rfl, rfl, by decide, fun h => Json.noConfusion h, by decide⟩
    · simp [FieldSpec.mk.injEq] at hfs
    · simp [FieldSpec.mk.injEq] at hfs
    · simp [FieldSpec.mk.injEq] at hfs
    · simp [FieldSpec.mk.injEq] at hfs
  obtain ⟨k, L1, L2, hkey, hspec, h1, hd, hfp⟩ := key
  exact ⟨default_field_op net ctx fn k L1 L2 f desc d W hspec hkey h1 hd hfp,
    fun v c m hnn hrun => validate_keeps_f net fn ctx f v W c m hfp hnn hrun⟩

/-- C8 (witness): the amended theorem applied to `create_contact` and its
default-filled `user_id` field, on the base payload `\x7bname_1: "x"\x7d` with
the non-null override `user_id = 9`: the completed payload keeps `9`. -/
theorem claim_C8_witness :
    lookupKey (workingOf "create_contact"
      [("contact_data", Json.obj
        [("name_1", Json.str "x"), ("user_id", Json.int 9),
         ("contact_type_id", Json.int 2), ("owner_id", Json.int 1)])]) "user_id" =
      some (Json.int 9) :=
  (claim_C8_amended netEmptyContact none "create_contact" "user_id"
      "User ID (typically 1)" (Json.int 1)
      [FieldSpec.mk "name_1" .requiredUserInput
        "Contact name (company name or first name)",
       FieldSpec.mk "contact_type_id" (.autoFillDefault (.int 2))
        "Contact type (1=company, 2=person)",
       FieldSpec.mk "user_id" (.autoFillDefault (.int 1)) "User ID (typically 1)",
       FieldSpec.mk "owner_id" (.autoFillDefault (.int 1)) "Owner ID (typically 1)"]
      [("name_1", Json.str "x")]
      (List.mem_cons_self _ _)
      (List.mem_cons_of_mem _ (List.mem_cons_of_mem _ (List.mem_cons_self _ _)))).2
    (Json.int 9)
    [("contact_data", Json.obj
      [("name_1", Json.str "x"), ("user_id", Json.int 9),
       ("contact_type_id", Json.int 2), ("owner_id", Json.int 1)])]
    [] (fun h => Json.noConfusion h) rfl

end BexioSpec
